import Mathlib

/-!
# A shallow embedding of the MinLZ stream writer (`vendor/github.com/minio/minlz/writer.go`)

This file models the writer's pure computations (chunk framing, varints, the
masked CRC, the stream header, skippable-frame sizing) and its observable
state machine (sticky error cell, sink emission, counters, index bookkeeping)
as executable Lean definitions, and proves the specification claims about
them.

Modelling conventions:
* bytes are `Nat` values (every constructor site reduces modulo 256 exactly
  where the Go code converts to `uint8`);
* the downstream `io.Writer` is a `Sink`: an output accumulator plus a
  scripted list of responses for successive `Write` calls (an exhausted
  script means every later call accepts everything) — this lets short
  writes and I/O errors be injected deterministically;
* the compression kernels (`encodeBlock`, `encodeBlockBetter`,
  `encodeBlockBest`, and the custom-encoder override) are outside the core
  per the spec's scope; the composite `Writer.encodeBlock` is modelled as a
  pure parameter `enc : List Nat → List Nat` whose empty result means
  "incompressible, store the block" (the Go kernel returning `n = 0`);
* the concurrent pipeline is modelled by its dispatcher-order serialization:
  submission (which touches only `uncompWritten` and `wroteStreamHeader`)
  produces the ordered record list that the single writer goroutine then
  drains (touching only the sink, `written`, the sticky error and the
  index): the two phases write disjoint state, and the ordering channel is
  FIFO, so running submission to completion and then the dispatcher is a
  faithful linearization of writer.go:151-181 together with 468-548;
* `while` loops on lists become fuel-indexed structural recursions; each use
  site passes fuel that provably dominates the iteration count, so the
  fuel-exhaustion branch is unreachable there.
-/

namespace MinLZ

/-- Go `uint8(n)`: bytes are naturals reduced mod 256. -/
def toByte (n : Nat) : Nat := n % 256

/-- The three little-endian length bytes `uint8(n>>0), uint8(n>>8), uint8(n>>16)`
written into every chunk header (writer.go:530-532 and near-identical sites). -/
def leBytes3 (n : Nat) : List Nat := [n % 256, n / 256 % 256, n / 65536 % 256]

/-- The four little-endian checksum bytes `uint8(c>>0) .. uint8(c>>24)`
(writer.go:533-536 and near-identical sites). -/
def leBytes4 (n : Nat) : List Nat :=
  [n % 256, n / 256 % 256, n / 65536 % 256, n / 16777216 % 256]

/-- Decode a 3-byte little-endian field (the reader's view of the 24-bit
chunk length; used to state claims about the length field). -/
def fromLE3 (l : List Nat) : Nat :=
  l.getD 0 0 + 256 * l.getD 1 0 + 65536 * l.getD 2 0

/-- Decode a 4-byte little-endian field (the reader's view of the checksum). -/
def fromLE4 (l : List Nat) : Nat :=
  l.getD 0 0 + 256 * l.getD 1 0 + 65536 * l.getD 2 0 + 16777216 * l.getD 3 0

/-- One step of `binary.PutUvarint`, fuel-indexed. `encoding/binary` emits
the low 7 bits with the continuation bit while the value is ≥ 0x80. Nine
units of fuel are exact for every `uint64` (ten bytes maximum). -/
def putUvarintF : Nat → Nat → List Nat
  | 0, n => [n % 128]
  | fuel + 1, n => if n < 128 then [n] else (n % 128 + 128) :: putUvarintF fuel (n / 128)

/-- Go `binary.PutUvarint` on a `uint64` value, as the emitted byte list. -/
def putUvarint (n : Nat) : List Nat := putUvarintF 9 n

/-- One bit-step of the reflected CRC-32 update with the Castagnoli
polynomial 0x82F63B78 (the table in `hash/crc32` is this step folded). -/
def crc32cBit (c : Nat) : Nat :=
  if c % 2 = 1 then (c / 2) ^^^ 0x82F63B78 else c / 2

/-- One byte-step of CRC-32C: xor the byte in, then eight bit-steps. -/
def crc32cByte (c b : Nat) : Nat :=
  (List.range 8).foldl (fun acc _ => crc32cBit acc) (c ^^^ b % 256)

/-- CRC-32C (Castagnoli) of a byte list: `crc32.Checksum(b, crcTable)` with
the standard initial and final complement. -/
def crc32c (data : List Nat) : Nat :=
  (data.foldl crc32cByte 0xFFFFFFFF) ^^^ 0xFFFFFFFF

/-- Modelled from the spec: the MinLZ checksum mask
`mask(c) = ((c >> 15) | (c << 17)) + 0xA282EAD8` in 32-bit wrapping
arithmetic (spec §6 "Masked CRC"); the helper `crc()` lives outside the
vendored writer file. -/
def maskCrc (c : Nat) : Nat :=
  (((c % 4294967296) / 32768 ||| (c * 131072) % 4294967296) + 0xA282EAD8) % 4294967296

/-- Modelled from the spec: the writer's `crc(b)` helper — the masked
CRC-32C of the uncompressed bytes (spec §3 invariant 1 and §6). -/
def crc (b : List Nat) : Nat := maskCrc (crc32c b)

/-! ## Format constants

The chunk-type constants, the magic, and the size bounds are declared in a
sibling file of the vendored repository that is not part of `src/`; values
are modelled from the spec (§4.1, §6) and, where the spec fixes none, from
the format conventions the writer code itself relies on. -/

/-- Modelled from the spec: chunk type of a MinLZ-compressed data chunk. -/
def chunkTypeMinLZCompressedData : Nat := 0x00

/-- Modelled from the spec: chunk type of an uncompressed data chunk. -/
def chunkTypeUncompressedData : Nat := 0x01

/-- Modelled from the spec: chunk type of the EOF marker (spec §4.1 `eof`;
the numeric value is not fixed by the spec). -/
def chunkTypeEOF : Nat := 0x20

/-- Modelled from the spec: the padding chunk type, which is also the
ceiling of user-chunk IDs (spec §4.1: user IDs lie in `[0x80, 0xFE]`). -/
def ChunkTypePadding : Nat := 0xFE

/-- Modelled from the spec: least user-skippable chunk id (spec §4.1). -/
def MinUserSkippableChunk : Nat := 0x80

/-- Modelled from the spec: maximum user-chunk body size; the spec fixes no
numeral, and a chunk body length must fit the 24-bit length field. -/
def MaxUserChunkSize : Nat := 16777215

/-- Modelled from the spec: every chunk has a 4-byte prefix — type byte plus
3-byte little-endian length (spec §4.1) — so the skippable-frame header is
4 bytes; the source's own bound-check message names 4 (writer.go:879). -/
def skippableFrameHeader : Nat := 4

/-- Modelled from the spec: maximum block size, 4 MiB (spec §6). -/
def maxBlockSize : Nat := 4194304

/-- Modelled from the spec: minimum block size, 4 KiB (spec §6). -/
def minBlockSize : Nat := 4096

/-- Modelled from the spec: default block size, 1 MiB (the vendored file's
own comment on `WriterBlockSize`, writer.go:953). -/
def defaultBlockSize : Nat := 1048576

/-- The per-chunk scratch header: 4 prefix bytes plus 4 checksum bytes
(`obufHeaderLen`; spec §4.3 writes the body at offset 8). -/
def obufHeaderLen : Nat := 8

/-- Modelled from the spec: the format magic bytes (a fixed byte string the
writer treats as opaque; spec §4.1 "magic chunk"). -/
def magicChunk : List Nat := [0xFF, 0x06, 0x00, 0x00, 0x4D, 0x69, 0x6E, 0x4C, 0x7A]

/-- Go `bits.Len`: number of bits needed to represent `n`; zero for zero. -/
def bitsLen (n : Nat) : Nat := if n = 0 then 0 else Nat.log2 n + 1

/-- `makeHeader` (writer.go:1037-1040): the magic bytes followed by
`byte(bits.Len(uint(blockSize-1))) - 10`, with `uint8` wraparound made
explicit. -/
def makeHeader (blockSize : Nat) : List Nat :=
  magicChunk ++ [(bitsLen (blockSize - 1) + 246) % 256]

/-! ## Per-block chunk construction

`write`, `writeFull`, `EncodeBuffer` and `writeSync` all build the same
chunk (writer.go:507-536, 392-426, 584-613, 651-678): masked CRC of the
source, tentative uncompressed classification, varint of the source length,
kernel attempt, then either the compressed chunk
`type ‖ len3 ‖ crc4 ‖ varint ‖ compressed` or the stored chunk
`type ‖ len3 ‖ crc4 ‖ src`. -/

/-- The complete chunk bytes a block worker produces for source `src` under
block encoder `enc` (empty kernel output = store uncompressed). In the
stored case the synchronous path emits the first 8 bytes and the raw source
as two sink writes while the concurrent path swaps buffers and emits them
as one; the concatenated bytes are this list either way. -/
def blockChunk (enc : List Nat → List Nat) (src : List Nat) : List Nat :=
  let checksum := crc src
  let v := putUvarint src.length
  let comp := enc src
  if 0 < comp.length then
    chunkTypeMinLZCompressedData ::
      (leBytes3 (4 + v.length + comp.length) ++ leBytes4 checksum ++ v ++ comp)
  else
    chunkTypeUncompressedData ::
      (leBytes3 (4 + src.length) ++ leBytes4 checksum ++ src)

/-! ## Skippable-frame (padding) arithmetic -/

/-- The bump loop of `calcSkippableFrame` (writer.go:866-868):
`for toAdd < skippableFrameHeader { toAdd += wantMultiple }`. The loop adds
at least 1 per iteration, so with `toAdd ≥ 1` it runs at most three times;
fuel 4 is therefore exact at the single call site. -/
def padLoop : Nat → Int → Int → Int
  | 0, toAdd, _ => toAdd
  | fuel + 1, toAdd, wantMultiple =>
    if toAdd < (skippableFrameHeader : Int) then padLoop fuel (toAdd + wantMultiple) wantMultiple
  else toAdd

/-- `calcSkippableFrame` (writer.go:854-870). The two `panic` branches are
modelled as `none`. -/
def calcSkippableFrame (written wantMultiple : Int) : Option Int :=
  if wantMultiple ≤ 0 then none
  else if written < 0 then none
  else
    let leftOver := written % wantMultiple
    if leftOver = 0 then some 0
    else some (padLoop 4 (wantMultiple - leftOver) wantMultiple)

/-- Errors surfaced by the writer. `io`-codes stand for distinct underlying
sink errors; `frameTooSmall`/`frameTooLarge` are the two size-bound errors
of `skippableFrame`; `indexRequested` is the direct error of
`closeIndex` when an index is demanded but generation was disabled. -/
inductive Err where
  | closed
  | nilWriter
  | shortWrite
  | shortBuffer
  | invalidLevel
  | invalidChunkId
  | userChunkTooLarge
  | indexRequested
  | frameTooSmall
  | frameTooLarge
  | io (code : Nat)
  deriving DecidableEq, Repr

/-- `skippableFrame` (writer.go:874-894): emit a padding chunk with a total
on-the-wire size of `total` bytes. The random source is modelled as a pure
generator `rand`; `io.ReadFull` fills exactly the `total - header` data
bytes it is given (the model truncates or zero-extends `rand`'s output so
the filled region always has that exact length; a failing random source is
the one fallible step the model leaves out). -/
def skippableFrame (dst : List Nat) (total : Nat) (rand : Nat → List Nat) :
    Except Err (List Nat) :=
  if total = 0 then .ok dst
  else if total < skippableFrameHeader then .error .frameTooSmall
  else if maxBlockSize + skippableFrameHeader ≤ total then .error .frameTooLarge
  else
    let f := total - skippableFrameHeader
    .ok (dst ++ ChunkTypePadding :: (leBytes3 f ++ (rand f ++ List.replicate f 0).take f))

/-! ## The sink

The downstream `io.Writer`. Its behavior on successive `Write` calls is
scripted by `resps`; an exhausted script accepts everything. `out` records
the bytes actually delivered (on a short or failing write, the accepted
prefix). -/

/-- One scripted response of the underlying writer: accept everything,
accept only `k` bytes without an error (a short write), or accept `k`
bytes and fail with the given code. -/
inductive SinkResp where
  | ok
  | short (k : Nat)
  | fail (code : Nat) (k : Nat)
  deriving DecidableEq, Repr

/-- The underlying byte sink: delivered output plus the response script. -/
structure Sink where
  out : List Nat
  resps : List SinkResp
  deriving DecidableEq, Repr

/-- One call of `sink.Write(b)`: the `(n, err)` pair and the next sink. -/
def Sink.write (s : Sink) (b : List Nat) : Nat × Option Err × Sink :=
  match s.resps with
  | [] => (b.length, none, ⟨s.out ++ b, []⟩)
  | .ok :: rest => (b.length, none, ⟨s.out ++ b, rest⟩)
  | .short k :: rest =>
    (min k b.length, none, ⟨s.out ++ b.take (min k b.length), rest⟩)
  | .fail c k :: rest =>
    (min k b.length, some (.io c), ⟨s.out ++ b.take (min k b.length), rest⟩)

/-! ## Writer state -/

/-- The writer state (`Writer` struct, writer.go:60-89). The two scratch
pools, the goroutine handles and the ordering channel carry no observable
value and are not state here; the index is its entry list (`some` iff the
`Index` pointer is non-nil, i.e. iff index generation is on). -/
structure Writer where
  errState : Option Err := none
  ibuf : List Nat := []
  blockSize : Nat := defaultBlockSize
  concurrency : Nat := 1
  pad : Nat := 0
  flushOnWrite : Bool := false
  appendIndex : Bool := false
  genIndex : Bool := true
  wroteStreamHeader : Bool := false
  written : Nat := 0
  uncompWritten : Nat := 0
  sink : Sink := ⟨[], []⟩
  index : Option (List (Nat × Nat)) := some []
  deriving DecidableEq, Repr

/-- The block-encoder parameter: the composite of the custom encoder and the
level-selected kernel (`Writer.encodeBlock`, writer.go:431-466), as a pure
function; `[]` models the kernel returning 0 ("incompressible"). -/
abbrev Enc := List Nat → List Nat

/-- `w.err(e)` (writer.go:102-111): first error wins; returns the cell. -/
def errCall (w : Writer) (e : Option Err) : Writer × Option Err :=
  match w.errState with
  | some e0 => (w, some e0)
  | none => ({ w with errState := e }, e)

/-- The latch-only use of `w.err(e)` (call sites that discard the result). -/
def Writer.latch (w : Writer) (e : Option Err) : Writer :=
  (errCall w e).1

/-- A sink write threaded through the writer state. -/
def sinkWrite (w : Writer) (b : List Nat) : Writer × Nat × Option Err :=
  let r := w.sink.write b
  ({ w with sink := r.2.2 }, r.1, r.2.1)

/-- `w.index.add(c, u)` (the `Index` type lives outside `src/`). Modelled
from the spec (§4.6): append the offset pair; a nil index ignores the call;
the model's index never rejects an entry, so the latched `index.add` error
is always absent. -/
def indexAdd (idx : Option (List (Nat × Nat))) (c u : Nat) : Option (List (Nat × Nat)) :=
  match idx with
  | none => none
  | some l => some (l ++ [(c, u)])

/-- `w.index.appendTo(dst, uncomp, comp)`. Modelled from the spec (§4.6): a
trailer serialization of the entries and the totals, with `comp = -1`
("unknown, padding follows") encoded distinctly. The wire layout is not
fixed by the spec; the claims treat these bytes as opaque. -/
def indexAppendTo (dst : List Nat) (entries : List (Nat × Nat))
    (totalUncomp : Nat) (totalComp : Int) : List Nat :=
  dst ++ putUvarint entries.length
      ++ entries.flatMap (fun e => putUvarint e.1 ++ putUvarint e.2)
      ++ putUvarint totalUncomp
      ++ (if totalComp < 0 then [0] else 1 :: putUvarint totalComp.toNat)

/-! ## The synchronous path (`writeSync`, writer.go:625-707) -/

/-- The block loop of `writeSync` (writer.go:643-705). Per block: build the
chunk; emit the 8-byte header plus body in one write when compressed, or
the 8-byte header and then the raw source as two writes when stored; any
sink error or short write latches and aborts with return count 0; the index
entry `(written, uncompWritten)` is recorded before the counters advance.
Fuel dominates the iteration count whenever `fuel ≥ p.length` and
`1 ≤ blockSize`. -/
def writeSyncLoop (enc : Enc) : Nat → Writer → List Nat → Nat → Writer × Nat × Option Err
  | 0, w, _, acc => (w, acc, none)
  | _, w, [], acc => (w, acc, none)
  | fuel + 1, w, p, acc =>
    let src := p.take w.blockSize
    let rest := p.drop w.blockSize
    let ch := blockChunk enc src
    let stored := (enc src).length = 0
    let obuf := if stored then ch.take obufHeaderLen else ch
    let r := sinkWrite w obuf
    let w := r.1
    match r.2.2 with
    | some e => let w2 := w.latch (some e); (w2, 0, w2.errState)
    | none =>
      if r.2.1 ≠ obuf.length then
        let w2 := w.latch (some .shortWrite)
        (w2, 0, w2.errState)
      else
        let w := { w with index := indexAdd w.index w.written w.uncompWritten }
        let w := { w with written := w.written + r.2.1,
                          uncompWritten := w.uncompWritten + src.length }
        if stored then
          let r2 := sinkWrite w src
          let w := r2.1
          match r2.2.2 with
          | some e => let w2 := w.latch (some e); (w2, 0, w2.errState)
          | none =>
            if r2.2.1 ≠ src.length then
              let w2 := w.latch (some .shortWrite)
              (w2, 0, w2.errState)
            else
              writeSyncLoop enc fuel { w with written := w.written + r2.2.1 }
                rest (acc + src.length)
        else
          writeSyncLoop enc fuel w rest (acc + src.length)

/-- `writeSync` (writer.go:625-707): sticky-error gate, one-shot stream
header (short writes on it promoted to `ErrShortWrite`), then the block
loop. -/
def writeSyncOp (enc : Enc) (w : Writer) (p : List Nat) : Writer × Nat × Option Err :=
  match w.errState with
  | some e => (w, 0, some e)
  | none =>
    if w.wroteStreamHeader then writeSyncLoop enc (p.length + 1) w p 0
    else
      let w := { w with wroteStreamHeader := true }
      let hdr := makeHeader w.blockSize
      let r := sinkWrite w hdr
      let w := r.1
      match r.2.2 with
      | some e => let w2 := w.latch (some e); (w2, 0, w2.errState)
      | none =>
        if r.2.1 ≠ magicChunk.length + 1 then
          let w2 := w.latch (some .shortWrite)
          (w2, 0, w2.errState)
        else
          writeSyncLoop enc (p.length + 1) { w with written := w.written + r.2.1 } p 0

/-! ## The concurrent pipeline (`write`, writer.go:468-548, serialized) -/

/-- One completed block as it travels through the ordering channel
(`result`, writer.go:91-95). -/
structure Rec where
  b : List Nat
  startOffset : Nat
  deriving DecidableEq, Repr

/-- Queue the stream header through the ordering channel if it has not been
queued yet (writer.go:478-483 and the identical blocks at 317-322, 369-374,
565-570). -/
def headerRecIfNeeded (w : Writer) : Writer × List Rec :=
  if w.wroteStreamHeader then (w, [])
  else ({ w with wroteStreamHeader := true },
        [⟨makeHeader w.blockSize, w.uncompWritten⟩])

/-- The submission loop of the concurrent `write` (writer.go:477-546) minus
the header (checked each iteration in Go, but the flag is set on the first,
so it is hoisted): cut a block, queue its completed chunk in order, advance
`uncompWritten` at submission time. -/
def submitBlocks (enc : Enc) : Nat → Writer → List Nat → Writer × List Rec
  | 0, w, _ => (w, [])
  | _, w, [] => (w, [])
  | fuel + 1, w, p =>
    let src := p.take w.blockSize
    let rest := p.drop w.blockSize
    let r : Rec := ⟨blockChunk enc src, w.uncompWritten⟩
    let w := { w with uncompWritten := w.uncompWritten + src.length }
    let s := submitBlocks enc fuel w rest
    (s.1, r :: s.2)

/-- The dispatcher body for one queued record (the writer goroutine,
writer.go:155-179): skip empty payloads (flush barriers); under an empty
error cell write the payload, promote an error-free short write to
`io.ErrShortBuffer`, latch, record the index entry at the pre-write
`written`, and advance `written` by the bytes the sink accepted. -/
def dispatchOne (w : Writer) (r : Rec) : Writer :=
  if 0 < r.b.length then
    if w.errState = none then
      let s := sinkWrite w r.b
      let w := s.1
      let e := if s.2.2 = none ∧ s.2.1 ≠ r.b.length then some Err.shortBuffer else s.2.2
      let w := w.latch e
      let w := { w with index := indexAdd w.index w.written r.startOffset }
      { w with written := w.written + s.2.1 }
    else w
  else w

/-- The dispatcher drains the ordering channel in FIFO order. -/
def dispatchAll (w : Writer) (rs : List Rec) : Writer := rs.foldl dispatchOne w

/-- The concurrent `write` path (writer.go:468-548), serialized at dispatch
order: sticky-error gate; for a nonempty input queue the header (first
iteration) and every block chunk, then drain. The returned count is the sum
of submitted block lengths. -/
def writeConcOp (enc : Enc) (w : Writer) (p : List Nat) : Writer × Nat × Option Err :=
  match w.errState with
  | some e => (w, 0, some e)
  | none =>
    if p = [] then (w, 0, none)
    else
      let h := headerRecIfNeeded w
      let s := submitBlocks enc (p.length + 1) h.1 p
      (dispatchAll s.1 (h.2 ++ s.2), s.1.uncompWritten - h.1.uncompWritten, none)

/-- `write` (writer.go:468-474): dispatch on concurrency. -/
def writeOp (enc : Enc) (w : Writer) (p : List Nat) : Writer × Nat × Option Err :=
  if w.concurrency = 1 then writeSyncOp enc w p else writeConcOp enc w p

/-- `writeFull` (writer.go:554-623): one block, already at most
`blockSize`, through the path selected by concurrency. -/
def writeFullOp (enc : Enc) (w : Writer) (src : List Nat) : Writer × Option Err :=
  match w.errState with
  | some e => (w, some e)
  | none =>
    if w.concurrency = 1 then
      let r := writeSyncOp enc w src
      (r.1, r.2.2)
    else
      let h := headerRecIfNeeded w
      let w := h.1
      let r : Rec := ⟨blockChunk enc src, w.uncompWritten⟩
      let w := { w with uncompWritten := w.uncompWritten + src.length }
      (dispatchAll w (h.2 ++ [r]), none)

/-! ## Public operations -/

/-- The accumulation loop of the public `Write` (writer.go:192-206): while
the pending bytes overflow the input buffer's remaining capacity and no
error is latched, either forward directly (empty buffer; the error of that
`write` is discarded, the latch is consulted by the loop condition) or top
the buffer up, submit it and reset it. Fuel `2·|p| + 2` dominates the
iteration count. -/
def writePubLoop (enc : Enc) : Nat → Writer → List Nat → Nat → Writer × List Nat × Nat
  | 0, w, p, acc => (w, p, acc)
  | fuel + 1, w, p, acc =>
    if w.blockSize - w.ibuf.length < p.length ∧ w.errState = none then
      if w.ibuf.length = 0 then
        let r := writeOp enc w p
        writePubLoop enc fuel r.1 (p.drop r.2.1) (acc + r.2.1)
      else
        let n := min (w.blockSize - w.ibuf.length) p.length
        let w := { w with ibuf := w.ibuf ++ p.take n }
        let r := writeOp enc w w.ibuf
        writePubLoop enc fuel { r.1 with ibuf := [] } (p.drop n) (acc + n)
    else (w, p, acc)

/-- The public `Write` (writer.go:184-215): sticky-error gate; flush-on-write
routes straight to `write`; otherwise the overflow loop and then the tail
copy into the input buffer. -/
def writePubOp (enc : Enc) (w : Writer) (p : List Nat) : Writer × Nat × Option Err :=
  match w.errState with
  | some e => (w, 0, some e)
  | none =>
    if w.flushOnWrite then writeOp enc w p
    else
      let r := writePubLoop enc (2 * p.length + 2) w p 0
      let w := r.1
      match w.errState with
      | some e => (w, r.2.2, some e)
      | none =>
        let n := min (w.blockSize - w.ibuf.length) r.2.1.length
        ({ w with ibuf := w.ibuf ++ r.2.1.take n }, r.2.2 + n, none)

/-- `AsyncFlush` (writer.go:711-732): submit any buffered input as a block;
the synchronous path is used while the header is unwritten. -/
def asyncFlushOp (enc : Enc) (w : Writer) : Writer × Option Err :=
  match w.errState with
  | some e => (w, some e)
  | none =>
    if w.ibuf = [] then (w, none)
    else if w.wroteStreamHeader then
      let r := writeOp enc w w.ibuf
      let w := { r.1 with ibuf := [] }
      (w, w.errState)
    else
      let r := writeSyncOp enc w w.ibuf
      let w := { r.1 with ibuf := [] }
      (w, w.errState)

/-- `Flush` (writer.go:736-753): `AsyncFlush`, then (when a dispatcher
exists, i.e. concurrency above one) an empty-payload barrier through the
ordering channel, which the dispatcher walks past without writing. -/
def flushOp (enc : Enc) (w : Writer) : Writer × Option Err :=
  let a := asyncFlushOp enc w
  match a.2 with
  | some e => (a.1, some e)
  | none =>
    let w := a.1
    if w.concurrency = 1 then (w, w.errState)
    else
      let w := dispatchOne w ⟨[], w.uncompWritten⟩
      (w, w.errState)

/-- `AddUserChunk` (writer.go:271-335): validate the id range and the body
size (direct errors, not latched); on the synchronous path emit header,
index entry and body inline with `ErrShortWrite` promotion; on the
concurrent path queue the framed chunk through the ordering channel. -/
def addUserChunkOp (w : Writer) (id : Nat) (data : List Nat) :
    Writer × Option Err :=
  match w.errState with
  | some e => (w, some e)
  | none =>
    if id < MinUserSkippableChunk ∨ ChunkTypePadding < id then (w, some .invalidChunkId)
    else if MaxUserChunkSize < data.length then (w, some .userChunkTooLarge)
    else
      let header := id :: leBytes3 data.length
      if w.concurrency = 1 then
        -- the local `write` closure (writer.go:288-298)
        let step := fun (w : Writer) (b : List Nat) =>
          let r := sinkWrite w b
          let c := errCall r.1 r.2.2
          match c.2 with
          | some e => (c.1, some e)
          | none =>
            if r.2.1 ≠ b.length then
              let c2 := errCall c.1 (some .shortWrite)
              (c2.1, c2.2)
            else ({ c.1 with written := c.1.written + r.2.1 }, (none : Option Err))
        let h :=
          if w.wroteStreamHeader then (w, (none : Option Err))
          else step { w with wroteStreamHeader := true } (makeHeader w.blockSize)
        match h.2 with
        | some e => (h.1, some e)
        | none =>
          let w := h.1
          let w :=
            if 0 < w.uncompWritten then
              { w with index := indexAdd w.index w.written w.uncompWritten }
            else w
          let s1 := step w header
          match s1.2 with
          | some e => (s1.1, some e)
          | none => step s1.1 data
      else
        let h := headerRecIfNeeded w
        let w := h.1
        (dispatchAll w (h.2 ++ [⟨header ++ data, w.uncompWritten⟩]), none)

/-- The pull loop of `ReadFrom` (writer.go:239-263): read up to a block,
count it, submit it through `writeFull`, stop on a latched error or a short
(EOF) read. The reader is modelled as the byte list it will produce. -/
def readFromLoop (enc : Enc) : Nat → Writer → List Nat → Nat → Writer × Nat
  | 0, w, _, acc => (w, acc)
  | fuel + 1, w, data, acc =>
    let chunk := data.take w.blockSize
    if chunk.length = 0 then (w, acc)
    else
      let r := writeFullOp enc w chunk
      if r.1.errState ≠ none then (r.1, acc + chunk.length)
      else if chunk.length < w.blockSize then (r.1, acc + chunk.length)
      else readFromLoop enc fuel r.1 (data.drop w.blockSize) (acc + chunk.length)

/-- `ReadFrom` (writer.go:222-266): sticky-error gate, flush of a pending
input buffer, then the pull loop. (The `byter` fast path hands a byte
slice to `EncodeBuffer`; readers here are already byte lists, so the
generic pull loop is the faithful model.) -/
def readFromOp (enc : Enc) (w : Writer) (data : List Nat) : Writer × Nat × Option Err :=
  match w.errState with
  | some e => (w, 0, some e)
  | none =>
    let a := if w.ibuf ≠ [] then asyncFlushOp enc w else (w, none)
    match a.2 with
    | some e => (a.1, 0, some e)
    | none =>
      let r := readFromLoop enc (data.length + 1) a.1 data 0
      (r.1, r.2, r.1.errState)

/-- `EncodeBuffer` (writer.go:347-429): sticky-error gate; flush-on-write
routes to `write`; a pending input buffer is flushed first; then the block
loop — synchronous under concurrency one, else header plus per-block
records through the ordering channel (the header is queued before the
block loop, even for an empty buffer). -/
def encodeBufferOp (enc : Enc) (w : Writer) (buf : List Nat) : Writer × Option Err :=
  match w.errState with
  | some e => (w, some e)
  | none =>
    if w.flushOnWrite then
      let r := writeOp enc w buf
      (r.1, r.2.2)
    else
      let a := if w.ibuf ≠ [] then asyncFlushOp enc w else (w, none)
      match a.2 with
      | some e => (a.1, some e)
      | none =>
        let w := a.1
        if w.concurrency = 1 then
          let r := writeSyncOp enc w buf
          (r.1, r.2.2)
        else
          let h := headerRecIfNeeded w
          let s := submitBlocks enc (buf.length + 1) h.1 buf
          (dispatchAll s.1 (h.2 ++ s.2), none)

/-- The body of `closeIndex` after the flush and the goroutine join
(writer.go:779-847), taking the flush error `ferr`: the direct
index-requested error; the EOF chunk (whose write latches errors but does
not check for short writes, and which advances `written` by the intended
length); index serialization (compressed total `-1` when padding follows;
the bytes count toward `written` before padding is sized when they will be
appended); the padding frame (short writes promoted, errors latched, an
impossible frame-size error returned directly); the appended index bytes;
finally the `errClosed` latch, with the closed and nil-writer sentinels
reported as success. -/
def closeIndexBody (rand : Nat → List Nat) (w : Writer) (ferr : Option Err) (idx : Bool) :
    Writer × Option (List Nat) × Option Err :=
  if idx ∧ w.index = none then (w, none, some .indexRequested)
  else
    -- EOF marker
    let c0 := errCall w ferr
    let w :=
      if c0.2 = none then
        let w := c0.1
        let uv := putUvarint w.uncompWritten
        let tmp := chunkTypeEOF :: uv.length :: 0 :: 0 :: uv
        let r := sinkWrite w tmp
        let w := r.1.latch r.2.2
        { w with written := w.written + tmp.length }
      else c0.1
    -- index creation, padding frame, appended index
    let c1 := errCall w ferr
    let w := c1.1
    let body : Except (Writer × Err) (Writer × Option (List Nat)) :=
      if c1.2 = none then
        let pair :=
          if idx then
            let compSize : Int := if w.pad ≤ 1 then (w.written : Int) else -1
            let ib := indexAppendTo [] (w.index.getD []) w.uncompWritten compSize
            let w := if w.appendIndex then { w with written := w.written + ib.length } else w
            (w, some ib)
          else (w, (none : Option (List Nat)))
        let w := pair.1
        let retIdx := pair.2
        let padded : Except (Writer × Err) Writer :=
          if 1 < w.pad then
            let add := ((calcSkippableFrame (w.written : Int) (w.pad : Int)).getD 0).toNat
            match skippableFrame [] add rand with
            | .error e =>
              let c := errCall w (some e)
              .error (c.1, c.2.getD e)
            | .ok frame =>
              let r := sinkWrite w frame
              let e2 := if r.2.2 = none ∧ r.2.1 ≠ frame.length then some Err.shortWrite
                        else r.2.2
              .ok ({ (r.1.latch e2) with written := r.1.written + r.2.1 })
          else .ok w
        match padded with
        | .error pr => .error pr
        | .ok w =>
          let w :=
            if 0 < (retIdx.getD []).length ∧ w.appendIndex then
              let r := sinkWrite w (retIdx.getD [])
              let e2 := if r.2.2 = none ∧ r.2.1 ≠ (retIdx.getD []).length then
                          some Err.shortWrite
                        else r.2.2
              r.1.latch e2
            else w
          .ok (w, retIdx)
      else .ok (w, none)
    match body with
    | .error pr => (pr.1, none, some pr.2)
    | .ok (w, retIdx) =>
      let c2 := errCall w (some .closed)
      if c2.2 = some .closed ∨ c2.2 = some .nilWriter then (c2.1, retIdx, none)
      else (c2.1, none, c2.2)

/-- `closeIndex` (writer.go:777-848): flush, join the dispatcher, then the
close body. -/
def closeIndexOp (enc : Enc) (rand : Nat → List Nat) (w : Writer) (idx : Bool) :
    Writer × Option (List Nat) × Option Err :=
  let f := flushOp enc w
  closeIndexBody rand f.1 f.2 idx

/-- `Close` (writer.go:759-762). -/
def closeOp (enc : Enc) (rand : Nat → List Nat) (w : Writer) : Writer × Option Err :=
  let r := closeIndexOp enc rand w w.appendIndex
  (r.1, r.2.2)

/-- The public operations named by the sticky-error claim. -/
inductive PubOp where
  | write (p : List Nat)
  | encodeBuffer (p : List Nat)
  | readFrom (data : List Nat)
  | addUserChunk (id : Nat) (data : List Nat)
  | asyncFlush
  | flush
  | close
  | closeIndex
  deriving DecidableEq, Repr

/-- Run one public call, reduced to its final state and returned error. -/
def runOp (enc : Enc) (rand : Nat → List Nat) (w : Writer) : PubOp → Writer × Option Err
  | .write p => let r := writePubOp enc w p; (r.1, r.2.2)
  | .encodeBuffer p => encodeBufferOp enc w p
  | .readFrom d => let r := readFromOp enc w d; (r.1, r.2.2)
  | .addUserChunk id data => addUserChunkOp w id data
  | .asyncFlush => asyncFlushOp enc w
  | .flush => flushOp enc w
  | .close => closeOp enc rand w
  | .closeIndex => let r := closeIndexOp enc rand w true; (r.1, r.2.2)

/-! ## Concrete instances used by counterexamples and witnesses -/

/-- A block encoder that always reports "incompressible" (the `Uncompressed`
level: no kernel case fires and `n` stays 0, writer.go:437-446). -/
def enc0 : Enc := fun _ => []

/-- A deterministic stand-in for the padding random source. -/
def randZeros : Nat → List Nat := fun n => List.replicate n 0

/-! ## Padding-frame arithmetic: helper lemmas -/

theorem skippableFrameHeader_int : (skippableFrameHeader : Int) = 4 := rfl

theorem padLoop_emod (fuel : Nat) (t m : Int) :
    padLoop fuel t m % m = t % m := by
  induction fuel generalizing t with
  | zero => rfl
  | succ f ih =>
    unfold padLoop
    split
    · rw [ih]
      have h : t + m = t + m * 1 := by ring
      rw [h, Int.add_mul_emod_self_left]
    · rfl

theorem padLoop_lt (fuel : Nat) (t m : Int)
    (ht : t < (skippableFrameHeader : Int) + m) :
    padLoop fuel t m < (skippableFrameHeader : Int) + m := by
  induction fuel generalizing t with
  | zero => exact ht
  | succ f ih =>
    unfold padLoop
    split
    · rename_i h
      exact ih _ (by rw [skippableFrameHeader_int] at h ⊢; omega)
    · exact ht

theorem padLoop_ge (t m : Int) (ht : 1 ≤ t) (hm : 1 ≤ m) :
    (skippableFrameHeader : Int) ≤ padLoop 4 t m := by
  rw [skippableFrameHeader_int]
  simp only [padLoop, skippableFrameHeader_int]
  split_ifs <;> omega

/-- Range and congruence of `calcSkippableFrame` on its non-panicking
domain: the result exists, is a non-negative completion of `written` to a
multiple of `m`, and is either zero or lies in
`[skippableFrameHeader, skippableFrameHeader + m)`. -/
theorem calcSkippableFrame_spec (written m : Int) (hm : 0 < m) (hw : 0 ≤ written) :
    ∃ v, calcSkippableFrame written m = some v ∧ 0 ≤ v ∧ (written + v) % m = 0 ∧
      (v = 0 ∨ ((skippableFrameHeader : Int) ≤ v ∧ v < (skippableFrameHeader : Int) + m)) := by
  unfold calcSkippableFrame
  rw [if_neg (by omega), if_neg (by omega)]
  have h0 : 0 ≤ written % m := Int.emod_nonneg written (by omega)
  have h1 : written % m < m := Int.emod_lt_of_pos written hm
  by_cases hz : written % m = 0
  · refine ⟨0, by simp [hz], le_refl 0, ?_, Or.inl rfl⟩
    rw [Int.add_zero, hz]
  · rw [if_neg (by simp [hz])]
    set t := m - written % m with hT
    have ht1 : 1 ≤ t := by omega
    have ht2 : t < (skippableFrameHeader : Int) + m := by
      rw [skippableFrameHeader_int]; omega
    have hge := padLoop_ge t m ht1 (by omega)
    have hlt := padLoop_lt 4 t m ht2
    refine ⟨padLoop 4 t m, rfl, ?_, ?_, Or.inr ⟨hge, hlt⟩⟩
    · rw [skippableFrameHeader_int] at hge; omega
    · have htm : t % m = t := Int.emod_eq_of_lt (by omega) (by omega)
      have hsum : written % m + t = m := by omega
      rw [Int.add_emod, padLoop_emod, htm, hsum, Int.emod_self]

/-- The padding frame built for a size in
`(0, skippableFrameHeader + maxBlockSize)` with the header included always
succeeds and occupies exactly the requested number of bytes on the wire. -/
theorem skippableFrame_ok (dst : List Nat) (total : Nat) (rand : Nat → List Nat)
    (h4 : skippableFrameHeader ≤ total)
    (hub : total < maxBlockSize + skippableFrameHeader) :
    skippableFrame dst total rand =
      .ok (dst ++ ChunkTypePadding ::
        (leBytes3 (total - skippableFrameHeader) ++
          ((rand (total - skippableFrameHeader) ++
            List.replicate (total - skippableFrameHeader) 0).take
              (total - skippableFrameHeader)))) ∧
    ∀ l, skippableFrame dst total rand = .ok l → l.length = dst.length + total := by
  have hnz : total ≠ 0 := by simp only [skippableFrameHeader] at h4; omega
  constructor
  · unfold skippableFrame
    rw [if_neg hnz, if_neg (by omega), if_neg (by omega)]
  · intro l hl
    unfold skippableFrame at hl
    rw [if_neg hnz, if_neg (by omega), if_neg (by omega)] at hl
    cases hl
    simp only [List.length_append, List.length_cons, List.length_take,
      List.length_replicate, leBytes3, List.length_nil]
    simp only [skippableFrameHeader] at h4 ⊢
    omega

/-- C6, original form, is false: with `written = 2` and `pad = 6` the code
uses the natural remainder 4 — at least the 4-byte skippable-frame header
but below the 5 the claim requires — and the emitted padding chunk is
exactly 4 bytes long, while the smallest `add ≥ 5` completing 2 to a
multiple of 6 would be 10. -/
theorem claim_C6_cex :
    calcSkippableFrame 2 6 = some 4 ∧
    skippableFrame [] 4 randZeros = .ok [ChunkTypePadding, 0, 0, 0] ∧
    ¬(5 : Int) ≤ 4 ∧ ((2 + 4) % 6 : Int) = 0 :=
  ⟨by decide, by rfl, by decide, by decide⟩

/-- C6 (amended: the minimum is the 4-byte skippable-frame header, not 5).
When `Close` pads with `pad > 1` and the running total is not already
aligned, the frame size the writer chooses is the smallest positive `add`
with `(written + add) % pad = 0` and `add ≥ skippableFrameHeader = 4`:
the natural remainder when it already fits the header, otherwise bumped by
whole multiples of `pad`; and the padding chunk emitted through
`skippableFrame` occupies exactly `add` bytes. -/
theorem claim_C6 (written pad : Int) (rand : Nat → List Nat)
    (hp2 : 2 ≤ pad) (hpmax : pad ≤ (maxBlockSize : Int)) (hw : 0 ≤ written)
    (hmis : written % pad ≠ 0) :
    ∃ add, calcSkippableFrame written pad = some add ∧
      0 < add ∧ (skippableFrameHeader : Int) ≤ add ∧ (written + add) % pad = 0 ∧
      (∀ a : Int, 0 < a → (written + a) % pad = 0 → (skippableFrameHeader : Int) ≤ a →
        add ≤ a) ∧
      ∃ l, skippableFrame [] add.toNat rand = .ok l ∧ l.length = add.toNat := by
  obtain ⟨v, hv, hv0, hvmod, hvcase⟩ :=
    calcSkippableFrame_spec written pad (by omega) hw
  have hvne : v ≠ 0 := by
    intro h
    rw [h, Int.add_zero] at hvmod
    exact hmis hvmod
  rcases hvcase with h | ⟨hge, hlt⟩
  · exact absurd h hvne
  rw [skippableFrameHeader_int] at hge hlt
  refine ⟨v, hv, by omega, by rw [skippableFrameHeader_int]; omega, hvmod, ?_, ?_⟩
  · intro a ha0 hamod ha4
    rw [skippableFrameHeader_int] at ha4
    by_contra hcon
    push_neg at hcon
    have hdvd : pad ∣ (v - a) := by
      have d1 : pad ∣ (written + v) := Int.dvd_of_emod_eq_zero hvmod
      have d2 : pad ∣ (written + a) := Int.dvd_of_emod_eq_zero hamod
      have h : (written + v) - (written + a) = v - a := by ring
      exact h ▸ Int.dvd_sub d1 d2
    have hpos : 0 < v - a := by omega
    have := Int.le_of_dvd hpos hdvd
    omega
  · have h4 : skippableFrameHeader ≤ v.toNat := by
      show 4 ≤ v.toNat
      omega
    have hub : v.toNat < maxBlockSize + skippableFrameHeader := by
      show v.toNat < 4194304 + 4
      simp only [maxBlockSize] at hpmax
      omega
    obtain ⟨heq, hlen⟩ := skippableFrame_ok [] v.toNat rand h4 hub
    exact ⟨_, heq, by simpa using hlen _ heq⟩

/-- C6 witness: at `written = 10`, `pad = 8` the chosen size is 6. -/
theorem claim_C6_witness :
    (2 ≤ (8 : Int) ∧ (8 : Int) ≤ (maxBlockSize : Int) ∧ 0 ≤ (10 : Int) ∧
      (10 : Int) % 8 ≠ 0) ∧
    ∃ add, calcSkippableFrame 10 8 = some add ∧
      0 < add ∧ (skippableFrameHeader : Int) ≤ add ∧ ((10 : Int) + add) % 8 = 0 ∧
      (∀ a : Int, 0 < a → ((10 : Int) + a) % 8 = 0 → (skippableFrameHeader : Int) ≤ a →
        add ≤ a) ∧
      ∃ l, skippableFrame [] add.toNat randZeros = .ok l ∧ l.length = add.toNat :=
  ⟨⟨by decide, by norm_num [maxBlockSize], by decide, by decide⟩,
   claim_C6 10 8 randZeros (by decide) (by norm_num [maxBlockSize]) (by decide) (by decide)⟩

/-- C10: on the domain `Close` uses it with — `written ≥ 0` and
`pad ∈ [2, 4 MiB]` — `calcSkippableFrame` never panics and returns either 0
or a size in `[skippableFrameHeader, pad + skippableFrameHeader)`, so the
two frame-size error branches of `skippableFrame` are unreachable and (with
the random source modelled as infallible) the frame construction succeeds. -/
theorem claim_C10 (written pad : Int) (rand : Nat → List Nat) (dst : List Nat)
    (hw : 0 ≤ written) (hp2 : 2 ≤ pad) (hpmax : pad ≤ (maxBlockSize : Int)) :
    ∃ v, calcSkippableFrame written pad = some v ∧
      (v = 0 ∨ ((skippableFrameHeader : Int) ≤ v ∧
        v < pad + (skippableFrameHeader : Int))) ∧
      ∃ l, skippableFrame dst v.toNat rand = Except.ok l := by
  obtain ⟨v, hv, hv0, _, hvcase⟩ := calcSkippableFrame_spec written pad (by omega) hw
  refine ⟨v, hv, ?_, ?_⟩
  · rcases hvcase with h | ⟨hge, hlt⟩
    · exact Or.inl h
    · rw [skippableFrameHeader_int] at hge hlt ⊢
      exact Or.inr ⟨hge, by omega⟩
  · rcases hvcase with h | ⟨hge, hlt⟩
    · subst h
      exact ⟨dst, rfl⟩
    · rw [skippableFrameHeader_int] at hge hlt
      have h4 : skippableFrameHeader ≤ v.toNat := by
        show 4 ≤ v.toNat
        omega
      have hub : v.toNat < maxBlockSize + skippableFrameHeader := by
        show v.toNat < 4194304 + 4
        simp only [maxBlockSize] at hpmax
        omega
      exact ⟨_, (skippableFrame_ok dst v.toNat rand h4 hub).1⟩

/-- C10 witness: `written = 12`, `pad = 6` gives 0 (already aligned). -/
theorem claim_C10_witness :
    (0 ≤ (12 : Int) ∧ 2 ≤ (6 : Int) ∧ (6 : Int) ≤ (maxBlockSize : Int)) ∧
    ∃ v, calcSkippableFrame 12 6 = some v ∧
      (v = 0 ∨ ((skippableFrameHeader : Int) ≤ v ∧
        v < 6 + (skippableFrameHeader : Int))) ∧
      ∃ l, skippableFrame [7] v.toNat randZeros = Except.ok l :=
  ⟨⟨by decide, by decide, by norm_num [maxBlockSize]⟩,
   claim_C10 12 6 randZeros [7] (by decide) (by decide) (by norm_num [maxBlockSize])⟩

/-! ## The stream-header byte (C9) -/

theorem log2_4095 : Nat.log2 4095 = 11 := by
  rw [Nat.log2_eq_log_two]
  exact Nat.log_eq_of_pow_le_of_lt_pow (by norm_num) (by norm_num)

/-- C9, original form, is false: at the minimum block size 4096 the header
byte the writer emits is 2 (`bits.Len(4095) - 10`), not
`floor(log2(4095)) - 10 = 1`. -/
theorem claim_C9_cex :
    makeHeader 4096 ≠ magicChunk ++ [Nat.log2 (4096 - 1) - 10] := by
  have h1 : (4096 - 1 : Nat) = 4095 := by norm_num
  have h2 : makeHeader 4096 = magicChunk ++ [(bitsLen 4095 + 246) % 256] := by
    have h : makeHeader 4096 = magicChunk ++ [(bitsLen (4096 - 1) + 246) % 256] := rfl
    rwa [h1] at h
  have h3 : bitsLen 4095 = 12 := by
    unfold bitsLen
    rw [if_neg (by norm_num), log2_4095]
  rw [h1, log2_4095, h2, h3]
  decide

/-- C9 (amended: the byte is `bits_needed(block_size - 1) - 10`, i.e.
`floor(log2(block_size - 1)) - 9`, one more than the claim's formula): for
every block size in `[4 KiB, 4 MiB]` the stream header is the magic bytes
followed by exactly that one byte, with no `uint8` wraparound in range. -/
theorem claim_C9 (bs : Nat) (hlo : minBlockSize ≤ bs) (hhi : bs ≤ maxBlockSize) :
    makeHeader bs = magicChunk ++ [Nat.log2 (bs - 1) - 9] ∧
    Nat.log2 (bs - 1) - 9 = bitsLen (bs - 1) - 10 := by
  simp only [minBlockSize, maxBlockSize] at hlo hhi
  have hne : bs - 1 ≠ 0 := by omega
  have h4095 : Nat.log 2 4095 = 11 := by
    rw [← Nat.log2_eq_log_two]
    exact log2_4095
  have hlog_lo : 11 ≤ Nat.log2 (bs - 1) := by
    rw [Nat.log2_eq_log_two, ← h4095]
    exact Nat.log_mono_right (by omega)
  have hlog_hi : Nat.log2 (bs - 1) ≤ 21 := by
    rw [Nat.log2_eq_log_two]
    calc Nat.log 2 (bs - 1) ≤ Nat.log 2 4194303 := Nat.log_mono_right (by omega)
    _ = 21 := Nat.log_eq_of_pow_le_of_lt_pow (by norm_num) (by norm_num)
  have hbl : bitsLen (bs - 1) = Nat.log2 (bs - 1) + 1 := by
    unfold bitsLen
    rw [if_neg hne]
  have hmk : makeHeader bs = magicChunk ++ [(bitsLen (bs - 1) + 246) % 256] := rfl
  constructor
  · rw [hmk, hbl]
    congr 2
    omega
  · rw [hbl]
    omega

/-- C9 witness: block size 65536 maps to header byte `log2 65535 - 9 = 6`. -/
theorem claim_C9_witness :
    (minBlockSize ≤ 65536 ∧ 65536 ≤ maxBlockSize) ∧
    (makeHeader 65536 = magicChunk ++ [Nat.log2 (65536 - 1) - 9] ∧
      Nat.log2 (65536 - 1) - 9 = bitsLen (65536 - 1) - 10) :=
  ⟨⟨by decide, by decide⟩, claim_C9 65536 (by decide) (by decide)⟩

/-! ## Closed forms of the block stream -/

/-- The bytes the block loops emit for input `p` under block size `bs`:
one `blockChunk` per cut block, in order. -/
def blocksOut (enc : Enc) (bs : Nat) : Nat → List Nat → List Nat
  | 0, _ => []
  | _, [] => []
  | fuel + 1, p => blockChunk enc (p.take bs) ++ blocksOut enc bs fuel (p.drop bs)

/-- The uncompressed bytes the block loops consume (their whole input once
the fuel covers it). -/
def consumedLen (bs : Nat) : Nat → List Nat → Nat
  | 0, _ => 0
  | _, [] => 0
  | fuel + 1, p => (p.take bs).length + consumedLen bs fuel (p.drop bs)

theorem consumedLen_full (bs : Nat) (hbs : 1 ≤ bs) :
    ∀ (fuel : Nat) (p : List Nat), p.length ≤ fuel → consumedLen bs fuel p = p.length := by
  intro fuel
  induction fuel with
  | zero =>
    intro p hp
    match p with
    | [] => rfl
  | succ f ih =>
    intro p hp
    match p with
    | [] => rfl
    | x :: rest =>
      have hp2 : rest.length + 1 ≤ f + 1 := by simpa using hp
      show (((x :: rest).take bs).length + consumedLen bs f ((x :: rest).drop bs)) = _
      rw [ih ((x :: rest).drop bs)
        (by simp only [List.length_drop, List.length_cons]; omega)]
      simp only [List.length_take, List.length_drop, List.length_cons]
      omega

/-- An error-free emission step: `w2` extends `w`'s delivered output by
`bytes`, advances the byte counter by exactly those bytes and the
uncompressed counter by `ulen`, and leaves the error cell, the input
buffer, the header flag, the configuration and index presence alone. -/
structure EmitsTo (w w2 : Writer) (bytes : List Nat) (ulen : Nat) : Prop where
  err : w2.errState = none
  out : w2.sink.out = w.sink.out ++ bytes
  resps : w2.sink.resps = []
  written : w2.written = w.written + bytes.length
  uncomp : w2.uncompWritten = w.uncompWritten + ulen
  ibuf : w2.ibuf = w.ibuf
  wsh : w2.wroteStreamHeader = w.wroteStreamHeader
  blockSize : w2.blockSize = w.blockSize
  concurrency : w2.concurrency = w.concurrency
  pad : w2.pad = w.pad
  flushOnWrite : w2.flushOnWrite = w.flushOnWrite
  appendIndex : w2.appendIndex = w.appendIndex
  genIndex : w2.genIndex = w.genIndex
  idx : w2.index.isSome = w.index.isSome

theorem EmitsTo.trans {w w2 w3 : Writer} {b1 b2 : List Nat} {u1 u2 : Nat}
    (h1 : EmitsTo w w2 b1 u1) (h2 : EmitsTo w2 w3 b2 u2) :
    EmitsTo w w3 (b1 ++ b2) (u1 + u2) := by
  refine ⟨h2.err, ?_, h2.resps, ?_, ?_, h2.ibuf.trans h1.ibuf, h2.wsh.trans h1.wsh,
    h2.blockSize.trans h1.blockSize, h2.concurrency.trans h1.concurrency,
    h2.pad.trans h1.pad, h2.flushOnWrite.trans h1.flushOnWrite,
    h2.appendIndex.trans h1.appendIndex, h2.genIndex.trans h1.genIndex,
    h2.idx.trans h1.idx⟩
  · rw [h2.out, h1.out, List.append_assoc]
  · rw [h2.written, h1.written, List.length_append]
    omega
  · rw [h2.uncomp, h1.uncomp]
    omega

theorem EmitsTo.refl (w : Writer) (he : w.errState = none) (hr : w.sink.resps = []) :
    EmitsTo w w [] 0 := by
  refine ⟨he, by simp, hr, by simp, by simp, rfl, rfl, rfl, rfl, rfl, rfl, rfl, rfl, rfl⟩

/-- On an ideal sink a write accepts everything with no error. -/
theorem sinkWrite_ideal (w : Writer) (b : List Nat) (hr : w.sink.resps = []) :
    sinkWrite w b = ({ w with sink := ⟨w.sink.out ++ b, []⟩ }, b.length, none) := by
  unfold sinkWrite Sink.write
  rw [hr]

/-- The stored-block chunk splits as its 8 header bytes plus the raw source
— the two sink writes of the synchronous path concatenate to the chunk. -/
theorem blockChunk_stored_split (enc : Enc) (src : List Nat)
    (h : (enc src).length = 0) :
    (blockChunk enc src).take obufHeaderLen ++ src = blockChunk enc src ∧
    ((blockChunk enc src).take obufHeaderLen).length = obufHeaderLen := by
  have hs : blockChunk enc src =
      chunkTypeUncompressedData ::
        (leBytes3 (4 + src.length) ++ leBytes4 (crc src) ++ src) := by
    unfold blockChunk
    rw [if_neg (by omega)]
  rw [hs]
  simp [leBytes3, leBytes4, obufHeaderLen, List.take_cons, List.cons_append]

theorem indexAdd_isSome (idx : Option (List (Nat × Nat))) (c u : Nat) :
    (indexAdd idx c u).isSome = idx.isSome := by
  cases idx <;> rfl

/-- On an ideal sink the synchronous block loop emits exactly the chunk
stream, never errs, and reports the consumed length. -/
theorem writeSyncLoop_ideal (enc : Enc) :
    ∀ (fuel : Nat) (w : Writer) (p : List Nat) (acc : Nat),
      w.errState = none → w.sink.resps = [] →
      EmitsTo w (writeSyncLoop enc fuel w p acc).1
        (blocksOut enc w.blockSize fuel p) (consumedLen w.blockSize fuel p) ∧
      (writeSyncLoop enc fuel w p acc).2.1 = acc + consumedLen w.blockSize fuel p ∧
      (writeSyncLoop enc fuel w p acc).2.2 = none := by
  intro fuel
  induction fuel with
  | zero =>
    intro w p acc he hr
    have hv : writeSyncLoop enc 0 w p acc = (w, acc, none) := by
      cases p <;> rfl
    rw [hv]
    refine ⟨?_, ?_, rfl⟩
    · cases p <;> exact EmitsTo.refl w he hr
    · cases p <;> simp [consumedLen]
  | succ f ih =>
    intro w p acc he hr
    obtain ⟨es, ib, bs, cc, pd, fw, ai, gi, wh, wr, uw, ⟨out, resps⟩, ix⟩ := w
    obtain rfl : es = none := he
    obtain rfl : resps = [] := hr
    cases p with
    | nil =>
      exact ⟨EmitsTo.refl _ rfl rfl, by simp [writeSyncLoop, consumedLen], rfl⟩
    | cons x rest =>
      have hout : blockChunk enc ((x :: rest).take bs) ++ blocksOut enc bs f ((x :: rest).drop bs) =
          blocksOut enc bs (f + 1) (x :: rest) := rfl
      have hcons : ((x :: rest).take bs).length + consumedLen bs f ((x :: rest).drop bs) =
          consumedLen bs (f + 1) (x :: rest) := rfl
      by_cases hst : (enc ((x :: rest).take bs)).length = 0
      · -- stored (uncompressed) block: two sink writes concatenate to the chunk
        obtain ⟨hsplit, hlen8⟩ := blockChunk_stored_split enc ((x :: rest).take bs) hst
        simp only [writeSyncLoop, sinkWrite, Sink.write, hst, if_true, ite_true, ne_eq,
          not_true_eq_false, if_false, ite_false]
        set W2 : Writer :=
          { errState := none, ibuf := ib, blockSize := bs, concurrency := cc, pad := pd,
            flushOnWrite := fw, appendIndex := ai, genIndex := gi, wroteStreamHeader := wh,
            written := wr +
              ((blockChunk enc ((x :: rest).take bs)).take obufHeaderLen).length +
              ((x :: rest).take bs).length,
            uncompWritten := uw + ((x :: rest).take bs).length,
            sink := ⟨out ++ (blockChunk enc ((x :: rest).take bs)).take obufHeaderLen ++
              (x :: rest).take bs, []⟩,
            index := indexAdd ix wr uw } with hW2
        obtain ⟨h1, h2, h3⟩ := ih W2 ((x :: rest).drop bs)
          (acc + ((x :: rest).take bs).length) rfl rfl
        have hblocks : blocksOut enc W2.blockSize f ((x :: rest).drop bs) =
            blocksOut enc bs f ((x :: rest).drop bs) := rfl
        have hcl : consumedLen W2.blockSize f ((x :: rest).drop bs) =
            consumedLen bs f ((x :: rest).drop bs) := rfl
        rw [hblocks, hcl] at h1
        rw [hcl] at h2
        have hfirst : EmitsTo ⟨none, ib, bs, cc, pd, fw, ai, gi, wh, wr, uw, ⟨out, []⟩, ix⟩
            W2 (blockChunk enc ((x :: rest).take bs)) ((x :: rest).take bs).length := by
          refine ⟨rfl, ?_, rfl, ?_, rfl, rfl, rfl, rfl, rfl, rfl, rfl, rfl, rfl,
            indexAdd_isSome _ _ _⟩
          · show out ++ (blockChunk enc ((x :: rest).take bs)).take obufHeaderLen ++
              (x :: rest).take bs = out ++ blockChunk enc ((x :: rest).take bs)
            rw [List.append_assoc, hsplit]
          · show wr + ((blockChunk enc ((x :: rest).take bs)).take obufHeaderLen).length +
              ((x :: rest).take bs).length = wr + (blockChunk enc ((x :: rest).take bs)).length
            have hlen : ((blockChunk enc ((x :: rest).take bs)).take obufHeaderLen).length +
                ((x :: rest).take bs).length = (blockChunk enc ((x :: rest).take bs)).length := by
              rw [← List.length_append, hsplit]
            omega
        refine ⟨?_, ?_, h3⟩
        · rw [← hout, ← hcons]
          exact hfirst.trans h1
        · rw [h2, ← hcons]
          omega
      · -- compressed block: one sink write of the whole chunk
        simp only [writeSyncLoop, sinkWrite, Sink.write, hst, if_true, ite_true, ne_eq,
          not_true_eq_false, if_false, ite_false]
        set W2 : Writer :=
          { errState := none, ibuf := ib, blockSize := bs, concurrency := cc, pad := pd,
            flushOnWrite := fw, appendIndex := ai, genIndex := gi, wroteStreamHeader := wh,
            written := wr + (blockChunk enc ((x :: rest).take bs)).length,
            uncompWritten := uw + ((x :: rest).take bs).length,
            sink := ⟨out ++ blockChunk enc ((x :: rest).take bs), []⟩,
            index := indexAdd ix wr uw } with hW2
        obtain ⟨h1, h2, h3⟩ := ih W2 ((x :: rest).drop bs)
          (acc + ((x :: rest).take bs).length) rfl rfl
        have hblocks : blocksOut enc W2.blockSize f ((x :: rest).drop bs) =
            blocksOut enc bs f ((x :: rest).drop bs) := rfl
        have hcl : consumedLen W2.blockSize f ((x :: rest).drop bs) =
            consumedLen bs f ((x :: rest).drop bs) := rfl
        rw [hblocks, hcl] at h1
        rw [hcl] at h2
        have hfirst : EmitsTo ⟨none, ib, bs, cc, pd, fw, ai, gi, wh, wr, uw, ⟨out, []⟩, ix⟩
            W2 (blockChunk enc ((x :: rest).take bs)) ((x :: rest).take bs).length :=
          ⟨rfl, rfl, rfl, rfl, rfl, rfl, rfl, rfl, rfl, rfl, rfl, rfl, rfl,
            indexAdd_isSome _ _ _⟩
        refine ⟨?_, ?_, h3⟩
        · rw [← hout, ← hcons]
          exact hfirst.trans h1
        · rw [h2, ← hcons]
          omega

/-- The header bytes an operation emits first: nothing when the stream
header is already out, else the magic-plus-exponent header. -/
def hdrOut (w : Writer) : List Nat :=
  if w.wroteStreamHeader then [] else makeHeader w.blockSize

/-- Like `EmitsTo`, but across an operation that ensures the stream header:
afterwards the header flag is set (the emitted `bytes` include the header
when the operation wrote it). -/
structure OpEmits (w w2 : Writer) (bytes : List Nat) (ulen : Nat) : Prop where
  err : w2.errState = none
  out : w2.sink.out = w.sink.out ++ bytes
  resps : w2.sink.resps = []
  written : w2.written = w.written + bytes.length
  uncomp : w2.uncompWritten = w.uncompWritten + ulen
  ibuf : w2.ibuf = w.ibuf
  wsh : w2.wroteStreamHeader = true
  blockSize : w2.blockSize = w.blockSize
  concurrency : w2.concurrency = w.concurrency
  pad : w2.pad = w.pad
  flushOnWrite : w2.flushOnWrite = w.flushOnWrite
  appendIndex : w2.appendIndex = w.appendIndex
  genIndex : w2.genIndex = w.genIndex
  idx : w2.index.isSome = w.index.isSome

theorem OpEmits.comp {w w2 w3 : Writer} {b1 b2 : List Nat} {u1 u2 : Nat}
    (h1 : OpEmits w w2 b1 u1) (h2 : EmitsTo w2 w3 b2 u2) :
    OpEmits w w3 (b1 ++ b2) (u1 + u2) := by
  refine ⟨h2.err, ?_, h2.resps, ?_, ?_, h2.ibuf.trans h1.ibuf, h2.wsh.trans h1.wsh,
    h2.blockSize.trans h1.blockSize, h2.concurrency.trans h1.concurrency,
    h2.pad.trans h1.pad, h2.flushOnWrite.trans h1.flushOnWrite,
    h2.appendIndex.trans h1.appendIndex, h2.genIndex.trans h1.genIndex,
    h2.idx.trans h1.idx⟩
  · rw [h2.out, h1.out, List.append_assoc]
  · rw [h2.written, h1.written, List.length_append]
    omega
  · rw [h2.uncomp, h1.uncomp]
    omega

theorem makeHeader_length (bs : Nat) : (makeHeader bs).length = magicChunk.length + 1 := by
  simp [makeHeader]

/-- On an ideal sink `writeSync` emits the header (when still owed) followed
by the chunk stream, reports the consumed bytes and no error. -/
theorem writeSyncOp_ideal (enc : Enc) (w : Writer) (p : List Nat)
    (he : w.errState = none) (hr : w.sink.resps = []) :
    OpEmits w (writeSyncOp enc w p).1
      (hdrOut w ++ blocksOut enc w.blockSize (p.length + 1) p)
      (consumedLen w.blockSize (p.length + 1) p) ∧
    (writeSyncOp enc w p).2.1 = consumedLen w.blockSize (p.length + 1) p ∧
    (writeSyncOp enc w p).2.2 = none := by
  obtain ⟨es, ib, bs, cc, pd, fw, ai, gi, wh, wr, uw, ⟨out, resps⟩, ix⟩ := w
  obtain rfl : es = none := he
  obtain rfl : resps = [] := hr
  cases wh with
  | true =>
    have hred : writeSyncOp enc
        ⟨none, ib, bs, cc, pd, fw, ai, gi, true, wr, uw, ⟨out, []⟩, ix⟩ p =
        writeSyncLoop enc (p.length + 1)
          ⟨none, ib, bs, cc, pd, fw, ai, gi, true, wr, uw, ⟨out, []⟩, ix⟩ p 0 := rfl
    rw [hred]
    obtain ⟨h1, h2, h3⟩ := writeSyncLoop_ideal enc (p.length + 1)
      ⟨none, ib, bs, cc, pd, fw, ai, gi, true, wr, uw, ⟨out, []⟩, ix⟩ p 0 rfl rfl
    refine ⟨?_, by simpa using h2, h3⟩
    have hh : hdrOut ⟨none, ib, bs, cc, pd, fw, ai, gi, true, wr, uw, ⟨out, []⟩, ix⟩
        = [] := rfl
    rw [hh, List.nil_append]
    exact ⟨h1.err, h1.out, h1.resps, h1.written, h1.uncomp, h1.ibuf, h1.wsh,
      h1.blockSize, h1.concurrency, h1.pad, h1.flushOnWrite, h1.appendIndex,
      h1.genIndex, h1.idx⟩
  | false =>
    simp only [writeSyncOp, sinkWrite, Sink.write, makeHeader_length, ne_eq,
      not_true_eq_false, if_false, ite_false, Bool.false_eq_true, reduceIte]
    set W2 : Writer :=
      { errState := none, ibuf := ib, blockSize := bs, concurrency := cc, pad := pd,
        flushOnWrite := fw, appendIndex := ai, genIndex := gi, wroteStreamHeader := true,
        written := wr + (magicChunk.length + 1), uncompWritten := uw,
        sink := ⟨out ++ makeHeader bs, []⟩, index := ix } with hW2
    obtain ⟨h1, h2, h3⟩ := writeSyncLoop_ideal enc (p.length + 1) W2 p 0 rfl rfl
    have hblocks : blocksOut enc W2.blockSize (p.length + 1) p =
        blocksOut enc bs (p.length + 1) p := rfl
    have hcl : consumedLen W2.blockSize (p.length + 1) p =
        consumedLen bs (p.length + 1) p := rfl
    rw [hblocks, hcl] at h1
    rw [hcl] at h2
    have hfirst : OpEmits ⟨none, ib, bs, cc, pd, fw, ai, gi, false, wr, uw, ⟨out, []⟩, ix⟩
        W2 (makeHeader bs) 0 := by
      refine ⟨rfl, rfl, rfl, ?_, ?_, rfl, rfl, rfl, rfl, rfl, rfl, rfl, rfl, rfl⟩
      · show wr + (magicChunk.length + 1) = wr + (makeHeader bs).length
        rw [makeHeader_length]
      · show uw = uw + 0
        omega
    have hcomb := hfirst.comp h1
    refine ⟨?_, by simpa using h2, h3⟩
    have hh : hdrOut ⟨none, ib, bs, cc, pd, fw, ai, gi, false, wr, uw, ⟨out, []⟩, ix⟩
        = makeHeader bs := rfl
    rw [hh]
    simpa using hcomb

/-- One dispatcher step on an ideal sink emits the record's payload. -/
theorem dispatchOne_ideal (w : Writer) (r : Rec)
    (he : w.errState = none) (hr : w.sink.resps = []) :
    EmitsTo w (dispatchOne w r) r.b 0 := by
  obtain ⟨b, so⟩ := r
  unfold dispatchOne
  by_cases hb : 0 < (Rec.mk b so).b.length
  · rw [if_pos hb, if_pos he]
    obtain ⟨es, ib, bs, cc, pd, fw, ai, gi, wh, wr, uw, ⟨out, resps⟩, ix⟩ := w
    obtain rfl : es = none := he
    obtain rfl : resps = [] := hr
    simp only [sinkWrite, Sink.write, ne_eq, not_true_eq_false, and_false, if_false,
      ite_false, Writer.latch, errCall]
    refine ⟨rfl, rfl, rfl, rfl, ?_, rfl, rfl, rfl, rfl, rfl, rfl, rfl, rfl,
      indexAdd_isSome _ _ _⟩
    show uw = uw + 0
    omega
  · rw [if_neg hb]
    have hnil : (Rec.mk b so).b = [] := by
      simp only [Rec.b] at hb ⊢
      exact List.eq_nil_of_length_eq_zero (by omega)
    rw [hnil]
    exact EmitsTo.refl w he hr

/-- The dispatcher drains a record list on an ideal sink by emitting the
concatenation of the payloads. -/
theorem dispatchAll_ideal :
    ∀ (rs : List Rec) (w : Writer), w.errState = none → w.sink.resps = [] →
      EmitsTo w (dispatchAll w rs) ((rs.map Rec.b).flatten) 0 := by
  intro rs
  induction rs with
  | nil =>
    intro w he hr
    exact EmitsTo.refl w he hr
  | cons r rest ih =>
    intro w he hr
    have h1 := dispatchOne_ideal w r he hr
    have h2 := ih (dispatchOne w r) h1.err h1.resps
    have hall : dispatchAll w (r :: rest) = dispatchAll (dispatchOne w r) rest := rfl
    rw [hall]
    have := h1.trans h2
    simpa using this

/-- The submission loop only advances `uncompWritten` (by what it cut) and
queues, in order, exactly the chunk stream as record payloads. -/
theorem submitBlocks_spec (enc : Enc) :
    ∀ (fuel : Nat) (w : Writer) (p : List Nat),
      (submitBlocks enc fuel w p).1 =
        { w with uncompWritten := w.uncompWritten + consumedLen w.blockSize fuel p } ∧
      (((submitBlocks enc fuel w p).2.map Rec.b).flatten) =
        blocksOut enc w.blockSize fuel p := by
  intro fuel
  induction fuel with
  | zero =>
    intro w p
    cases p <;> exact ⟨rfl, rfl⟩
  | succ f ih =>
    intro w p
    cases p with
    | nil => exact ⟨rfl, rfl⟩
    | cons x rest =>
      obtain ⟨es, ib, bs, cc, pd, fw, ai, gi, wh, wr, uw, ⟨out, resps⟩, ix⟩ := w
      simp only [submitBlocks]
      set W2 : Writer :=
        { errState := es, ibuf := ib, blockSize := bs, concurrency := cc, pad := pd,
          flushOnWrite := fw, appendIndex := ai, genIndex := gi, wroteStreamHeader := wh,
          written := wr, uncompWritten := uw + ((x :: rest).take bs).length,
          sink := ⟨out, resps⟩, index := ix } with hW2
      obtain ⟨ih1, ih2⟩ := ih W2 ((x :: rest).drop bs)
      have hcl : consumedLen W2.blockSize f ((x :: rest).drop bs) =
          consumedLen bs f ((x :: rest).drop bs) := rfl
      have hbl : blocksOut enc W2.blockSize f ((x :: rest).drop bs) =
          blocksOut enc bs f ((x :: rest).drop bs) := rfl
      rw [hcl] at ih1
      rw [hbl] at ih2
      constructor
      · rw [ih1]
        have hc : consumedLen bs (f + 1) (x :: rest) =
            ((x :: rest).take bs).length + consumedLen bs f ((x :: rest).drop bs) := rfl
        simp only [hW2, Writer.mk.injEq, hc, true_and, and_true]
        omega
      · simp only [List.map_cons, List.flatten_cons, ih2]
        rfl

/-- On an ideal sink the serialized concurrent `write` path emits the header
(when still owed) followed by the chunk stream — the same bytes as the
synchronous path — and reports the consumed length with no error. -/
theorem writeConcOp_ideal (enc : Enc) (w : Writer) (p : List Nat)
    (he : w.errState = none) (hr : w.sink.resps = []) (hp : p ≠ []) :
    OpEmits w (writeConcOp enc w p).1
      (hdrOut w ++ blocksOut enc w.blockSize (p.length + 1) p)
      (consumedLen w.blockSize (p.length + 1) p) ∧
    (writeConcOp enc w p).2.1 = consumedLen w.blockSize (p.length + 1) p ∧
    (writeConcOp enc w p).2.2 = none := by
  obtain ⟨es, ib, bs, cc, pd, fw, ai, gi, wh, wr, uw, ⟨out, resps⟩, ix⟩ := w
  obtain rfl : es = none := he
  obtain rfl : resps = [] := hr
  cases wh with
  | true =>
    have hred : writeConcOp enc
        ⟨none, ib, bs, cc, pd, fw, ai, gi, true, wr, uw, ⟨out, []⟩, ix⟩ p =
        (dispatchAll
          (submitBlocks enc (p.length + 1)
            ⟨none, ib, bs, cc, pd, fw, ai, gi, true, wr, uw, ⟨out, []⟩, ix⟩ p).1
          ((submitBlocks enc (p.length + 1)
            ⟨none, ib, bs, cc, pd, fw, ai, gi, true, wr, uw, ⟨out, []⟩, ix⟩ p).2),
         (submitBlocks enc (p.length + 1)
            ⟨none, ib, bs, cc, pd, fw, ai, gi, true, wr, uw, ⟨out, []⟩, ix⟩ p).1.uncompWritten
           - uw, none) := by
      unfold writeConcOp
      rw [if_neg hp]
      rfl
    obtain ⟨hs1, hs2⟩ := submitBlocks_spec enc (p.length + 1)
      ⟨none, ib, bs, cc, pd, fw, ai, gi, true, wr, uw, ⟨out, []⟩, ix⟩ p
    have hS1 : (submitBlocks enc (p.length + 1)
        ⟨none, ib, bs, cc, pd, fw, ai, gi, true, wr, uw, ⟨out, []⟩, ix⟩ p).1 =
        ⟨none, ib, bs, cc, pd, fw, ai, gi, true, wr,
          uw + consumedLen bs (p.length + 1) p, ⟨out, []⟩, ix⟩ := by
      rw [hs1]
    rw [hred, hS1]
    have hd := dispatchAll_ideal
      ((submitBlocks enc (p.length + 1)
        ⟨none, ib, bs, cc, pd, fw, ai, gi, true, wr, uw, ⟨out, []⟩, ix⟩ p).2)
      ⟨none, ib, bs, cc, pd, fw, ai, gi, true, wr,
        uw + consumedLen bs (p.length + 1) p, ⟨out, []⟩, ix⟩ rfl rfl
    have hbytes : (((submitBlocks enc (p.length + 1)
        ⟨none, ib, bs, cc, pd, fw, ai, gi, true, wr, uw, ⟨out, []⟩, ix⟩ p).2).map
          Rec.b).flatten = blocksOut enc bs (p.length + 1) p := hs2
    rw [hbytes] at hd
    refine ⟨?_, ?_, rfl⟩
    · have hhd : hdrOut ⟨none, ib, bs, cc, pd, fw, ai, gi, true, wr, uw, ⟨out, []⟩, ix⟩
          = [] := rfl
      rw [hhd, List.nil_append]
      refine ⟨hd.err, hd.out, hd.resps, hd.written, ?_, hd.ibuf, hd.wsh, hd.blockSize,
        hd.concurrency, hd.pad, hd.flushOnWrite, hd.appendIndex, hd.genIndex, hd.idx⟩
      rw [hd.uncomp]
      show uw + consumedLen bs (p.length + 1) p + 0 = uw + consumedLen bs (p.length + 1) p
      omega
    · show uw + consumedLen bs (p.length + 1) p - uw = consumedLen bs (p.length + 1) p
      omega
  | false =>
    have hred : writeConcOp enc
        ⟨none, ib, bs, cc, pd, fw, ai, gi, false, wr, uw, ⟨out, []⟩, ix⟩ p =
        (dispatchAll
          (submitBlocks enc (p.length + 1)
            ⟨none, ib, bs, cc, pd, fw, ai, gi, true, wr, uw, ⟨out, []⟩, ix⟩ p).1
          (Rec.mk (makeHeader bs) uw :: (submitBlocks enc (p.length + 1)
            ⟨none, ib, bs, cc, pd, fw, ai, gi, true, wr, uw, ⟨out, []⟩, ix⟩ p).2),
         (submitBlocks enc (p.length + 1)
            ⟨none, ib, bs, cc, pd, fw, ai, gi, true, wr, uw, ⟨out, []⟩, ix⟩ p).1.uncompWritten
           - uw, none) := by
      unfold writeConcOp
      rw [if_neg hp]
      rfl
    obtain ⟨hs1, hs2⟩ := submitBlocks_spec enc (p.length + 1)
      ⟨none, ib, bs, cc, pd, fw, ai, gi, true, wr, uw, ⟨out, []⟩, ix⟩ p
    have hS1 : (submitBlocks enc (p.length + 1)
        ⟨none, ib, bs, cc, pd, fw, ai, gi, true, wr, uw, ⟨out, []⟩, ix⟩ p).1 =
        ⟨none, ib, bs, cc, pd, fw, ai, gi, true, wr,
          uw + consumedLen bs (p.length + 1) p, ⟨out, []⟩, ix⟩ := by
      rw [hs1]
    rw [hred, hS1]
    have hd := dispatchAll_ideal
      (Rec.mk (makeHeader bs) uw :: (submitBlocks enc (p.length + 1)
        ⟨none, ib, bs, cc, pd, fw, ai, gi, true, wr, uw, ⟨out, []⟩, ix⟩ p).2)
      ⟨none, ib, bs, cc, pd, fw, ai, gi, true, wr,
        uw + consumedLen bs (p.length + 1) p, ⟨out, []⟩, ix⟩ rfl rfl
    have hbytes : ((Rec.mk (makeHeader bs) uw :: (submitBlocks enc (p.length + 1)
        ⟨none, ib, bs, cc, pd, fw, ai, gi, true, wr, uw, ⟨out, []⟩, ix⟩ p).2).map
          Rec.b).flatten = makeHeader bs ++ blocksOut enc bs (p.length + 1) p := by
      simp only [List.map_cons, List.flatten_cons, hs2]
    rw [hbytes] at hd
    refine ⟨?_, ?_, rfl⟩
    · have hhd : hdrOut ⟨none, ib, bs, cc, pd, fw, ai, gi, false, wr, uw, ⟨out, []⟩, ix⟩
          = makeHeader bs := rfl
      rw [hhd]
      refine ⟨hd.err, hd.out, hd.resps, hd.written, ?_, hd.ibuf, hd.wsh, hd.blockSize,
        hd.concurrency, hd.pad, hd.flushOnWrite, hd.appendIndex, hd.genIndex, hd.idx⟩
      rw [hd.uncomp]
      show uw + consumedLen bs (p.length + 1) p + 0 = uw + consumedLen bs (p.length + 1) p
      omega
    · show uw + consumedLen bs (p.length + 1) p - uw = consumedLen bs (p.length + 1) p
      omega

/-! ## Supporting facts for the chunk-layout and equivalence claims -/

theorem blocksOut_single (enc : Enc) (bs : Nat) (src : List Nat)
    (h0 : src ≠ []) (hbs : src.length ≤ bs) :
    blocksOut enc bs (src.length + 1) src = blockChunk enc src := by
  match src, h0 with
  | x :: r, _ =>
    show blockChunk enc ((x :: r).take bs) ++
      blocksOut enc bs (r.length + 1) ((x :: r).drop bs) = _
    rw [List.take_of_length_le hbs, List.drop_eq_nil_of_le hbs]
    have hnil : blocksOut enc bs (r.length + 1) [] = [] := rfl
    rw [hnil, List.append_nil]

theorem consumedLen_single (bs : Nat) (src : List Nat)
    (h0 : src ≠ []) (hbs : src.length ≤ bs) :
    consumedLen bs (src.length + 1) src = src.length := by
  match src, h0 with
  | x :: r, _ =>
    show ((x :: r).take bs).length + consumedLen bs (r.length + 1) ((x :: r).drop bs) = _
    rw [List.take_of_length_le hbs, List.drop_eq_nil_of_le hbs]
    have hnil : consumedLen bs (r.length + 1) ([] : List Nat) = 0 := rfl
    rw [hnil]
    omega

theorem fromLE3_leBytes3 (n : Nat) (h : n < 16777216) :
    fromLE3 (leBytes3 n) = n := by
  simp only [fromLE3, leBytes3, List.getD_cons_zero, List.getD_cons_succ]
  omega

theorem fromLE4_leBytes4 (n : Nat) (h : n < 4294967296) :
    fromLE4 (leBytes4 n) = n := by
  simp only [fromLE4, leBytes4, List.getD_cons_zero, List.getD_cons_succ]
  omega

theorem crc32cBit_lt (c : Nat) (h : c < 4294967296) : crc32cBit c < 4294967296 := by
  unfold crc32cBit
  have h32 : (4294967296 : Nat) = 2 ^ 32 := by norm_num
  split
  · rw [h32]
    exact Nat.xor_lt_two_pow (by omega) (by norm_num)
  · omega

theorem foldl_crc32cBit_lt (l : List Nat) (c : Nat) (h : c < 4294967296) :
    l.foldl (fun acc _ => crc32cBit acc) c < 4294967296 := by
  induction l generalizing c with
  | nil => exact h
  | cons a t ih => exact ih _ (crc32cBit_lt c h)

theorem crc32cByte_lt (c b : Nat) (h : c < 4294967296) :
    crc32cByte c b < 4294967296 := by
  unfold crc32cByte
  have h32 : (4294967296 : Nat) = 2 ^ 32 := by norm_num
  have hstart : c ^^^ b % 256 < 4294967296 := by
    rw [h32]
    exact Nat.xor_lt_two_pow (by omega) (by omega)
  exact foldl_crc32cBit_lt _ _ hstart

theorem foldl_crc32cByte_lt (data : List Nat) (c : Nat) (h : c < 4294967296) :
    data.foldl crc32cByte c < 4294967296 := by
  induction data generalizing c with
  | nil => exact h
  | cons a t ih => exact ih _ (crc32cByte_lt c a h)

theorem crc32c_lt (data : List Nat) : crc32c data < 4294967296 := by
  unfold crc32c
  have h32 : (4294967296 : Nat) = 2 ^ 32 := by norm_num
  rw [h32]
  refine Nat.xor_lt_two_pow ?_ (by norm_num)
  rw [← h32]
  exact foldl_crc32cByte_lt data 0xFFFFFFFF (by norm_num)

/-! ## C8: concurrency equivalence -/

/-- C8, original form, is false at the empty input: a zero-length slice
reaches `write` through flush-on-write `Write` (or `EncodeBuffer`), and
there the synchronous path emits the stream header at once while the
concurrent path emits nothing. -/
theorem claim_C8_cex :
    (writeOp enc0 ({} : Writer) []).1.sink.out ≠
      (writeOp enc0 ({ concurrency := 2 } : Writer) []).1.sink.out := by
  obtain ⟨ha, _, _⟩ := writeSyncOp_ideal enc0 ({} : Writer) [] rfl rfl
  have hA : writeOp enc0 ({} : Writer) [] = writeSyncOp enc0 ({} : Writer) [] := rfl
  have hR : (writeOp enc0 ({ concurrency := 2 } : Writer) []).1.sink.out = [] := rfl
  rw [hA, ha.out, hR]
  intro h
  have h2 := congrArg List.length h
  simp only [List.length_append, hdrOut, List.length_nil, makeHeader_length,
    Bool.false_eq_true, reduceIte] at h2
  have hb : blocksOut enc0 defaultBlockSize (0 + 1) ([] : List Nat) = [] := rfl
  rw [hb] at h2
  simp [magicChunk] at h2

/-- C8 (amended: for every nonempty input slice handed to the internal
`write`). With a deterministic block encoder and an ideal sink, the
synchronous path taken at concurrency 1 and the serialized ordered pipeline
taken at any other concurrency emit bit-identical bytes and agree on the
byte counters, the return count and the absence of errors. -/
theorem claim_C8 (enc : Enc) (w : Writer) (p : List Nat) (n : Nat)
    (he : w.errState = none) (hr : w.sink.resps = []) (hp : p ≠ []) :
    (writeOp enc { w with concurrency := 1 } p).1.sink.out =
      (writeOp enc { w with concurrency := n } p).1.sink.out ∧
    (writeOp enc { w with concurrency := 1 } p).1.written =
      (writeOp enc { w with concurrency := n } p).1.written ∧
    (writeOp enc { w with concurrency := 1 } p).1.uncompWritten =
      (writeOp enc { w with concurrency := n } p).1.uncompWritten ∧
    (writeOp enc { w with concurrency := 1 } p).1.errState = none ∧
    (writeOp enc { w with concurrency := n } p).1.errState = none ∧
    (writeOp enc { w with concurrency := 1 } p).2.1 =
      (writeOp enc { w with concurrency := n } p).2.1 ∧
    (writeOp enc { w with concurrency := 1 } p).2.2 = none ∧
    (writeOp enc { w with concurrency := n } p).2.2 = none := by
  have hA : writeOp enc { w with concurrency := 1 } p =
      writeSyncOp enc { w with concurrency := 1 } p := rfl
  obtain ⟨ha, ha1, ha2⟩ := writeSyncOp_ideal enc { w with concurrency := 1 } p he hr
  by_cases hn : n = 1
  · subst hn
    rw [hA]
    exact ⟨rfl, rfl, rfl, ha.err, ha.err, rfl, ha2, ha2⟩
  · have hB : writeOp enc { w with concurrency := n } p =
        writeConcOp enc { w with concurrency := n } p := by
      unfold writeOp
      rw [if_neg hn]
    obtain ⟨hb, hb1, hb2⟩ := writeConcOp_ideal enc { w with concurrency := n } p he hr hp
    rw [hA, hB]
    refine ⟨?_, ?_, ?_, ha.err, hb.err, ?_, ha2, hb2⟩
    · rw [ha.out, hb.out]
      rfl
    · rw [ha.written, hb.written]
      rfl
    · rw [ha.uncomp, hb.uncomp]
    · rw [ha1, hb1]

/-- C8 witness: one three-byte block, concurrency 1 against 3. -/
theorem claim_C8_witness :
    (({} : Writer).errState = none ∧ ({} : Writer).sink.resps = [] ∧
      ([1, 2, 3] : List Nat) ≠ []) ∧
    ((writeOp enc0 { ({} : Writer) with concurrency := 1 } [1, 2, 3]).1.sink.out =
      (writeOp enc0 { ({} : Writer) with concurrency := 3 } [1, 2, 3]).1.sink.out ∧
    (writeOp enc0 { ({} : Writer) with concurrency := 1 } [1, 2, 3]).1.written =
      (writeOp enc0 { ({} : Writer) with concurrency := 3 } [1, 2, 3]).1.written ∧
    (writeOp enc0 { ({} : Writer) with concurrency := 1 } [1, 2, 3]).1.uncompWritten =
      (writeOp enc0 { ({} : Writer) with concurrency := 3 } [1, 2, 3]).1.uncompWritten ∧
    (writeOp enc0 { ({} : Writer) with concurrency := 1 } [1, 2, 3]).1.errState = none ∧
    (writeOp enc0 { ({} : Writer) with concurrency := 3 } [1, 2, 3]).1.errState = none ∧
    (writeOp enc0 { ({} : Writer) with concurrency := 1 } [1, 2, 3]).2.1 =
      (writeOp enc0 { ({} : Writer) with concurrency := 3 } [1, 2, 3]).2.1 ∧
    (writeOp enc0 { ({} : Writer) with concurrency := 1 } [1, 2, 3]).2.2 = none ∧
    (writeOp enc0 { ({} : Writer) with concurrency := 3 } [1, 2, 3]).2.2 = none) :=
  ⟨⟨rfl, rfl, by decide⟩, claim_C8 enc0 {} [1, 2, 3] 3 rfl rfl (by decide)⟩

/-! ## C1: per-block chunk selection and layout -/

/-- C1: on both the synchronous and the concurrent path a submitted block
appends exactly one chunk to the sink; it is the MinLZ-compressed chunk
`type ‖ len3 ‖ crc4 ‖ varint(len src) ‖ compressed` exactly when the
encoder returns a positive count, otherwise the uncompressed chunk
`type ‖ len3 ‖ crc4 ‖ src` whose 24-bit length field decodes to exactly
`4 + len src`. -/
theorem claim_C1 (enc : Enc) (w : Writer) (src : List Nat)
    (he : w.errState = none) (hr : w.sink.resps = [])
    (hw : w.wroteStreamHeader = true) (h0 : src ≠ [])
    (hbs : src.length ≤ w.blockSize) (hmax : w.blockSize ≤ maxBlockSize) :
    (writeSyncOp enc w src).1.sink.out = w.sink.out ++ blockChunk enc src ∧
    (writeConcOp enc w src).1.sink.out = w.sink.out ++ blockChunk enc src ∧
    (0 < (enc src).length →
      blockChunk enc src =
        chunkTypeMinLZCompressedData ::
          (leBytes3 (4 + (putUvarint src.length).length + (enc src).length) ++
            leBytes4 (crc src) ++ putUvarint src.length ++ enc src)) ∧
    ((enc src).length = 0 →
      blockChunk enc src =
        chunkTypeUncompressedData ::
          (leBytes3 (4 + src.length) ++ leBytes4 (crc src) ++ src) ∧
      fromLE3 ((blockChunk enc src).drop 1 |>.take 3) = 4 + src.length) := by
  have hsingle := blocksOut_single enc w.blockSize src h0 hbs
  have hhd : hdrOut w = [] := by
    unfold hdrOut
    rw [hw]
    rfl
  obtain ⟨ha, _, _⟩ := writeSyncOp_ideal enc w src he hr
  obtain ⟨hb, _, _⟩ := writeConcOp_ideal enc w src he hr h0
  refine ⟨?_, ?_, ?_, ?_⟩
  · rw [ha.out, hhd, List.nil_append, hsingle]
  · rw [hb.out, hhd, List.nil_append, hsingle]
  · intro hpos
    unfold blockChunk
    rw [if_pos hpos]
  · intro hz
    have hch : blockChunk enc src =
        chunkTypeUncompressedData ::
          (leBytes3 (4 + src.length) ++ leBytes4 (crc src) ++ src) := by
      unfold blockChunk
      rw [if_neg (by omega)]
    refine ⟨hch, ?_⟩
    rw [hch]
    have hdrop : ((chunkTypeUncompressedData ::
        (leBytes3 (4 + src.length) ++ leBytes4 (crc src) ++ src)).drop 1).take 3 =
        leBytes3 (4 + src.length) := by
      simp [leBytes3, leBytes4]
    rw [hdrop]
    apply fromLE3_leBytes3
    simp only [maxBlockSize] at hmax
    omega

/-- C1 witness: the single byte block `[1]` under the store-only encoder. -/
theorem claim_C1_witness :
    (({ wroteStreamHeader := true } : Writer).errState = none ∧
      ({ wroteStreamHeader := true } : Writer).sink.resps = [] ∧
      ({ wroteStreamHeader := true } : Writer).wroteStreamHeader = true ∧
      ([1] : List Nat) ≠ [] ∧
      ([1] : List Nat).length ≤ ({ wroteStreamHeader := true } : Writer).blockSize ∧
      ({ wroteStreamHeader := true } : Writer).blockSize ≤ maxBlockSize) ∧
    ((writeSyncOp enc0 { wroteStreamHeader := true } [1]).1.sink.out =
      ({ wroteStreamHeader := true } : Writer).sink.out ++ blockChunk enc0 [1] ∧
    (writeConcOp enc0 { wroteStreamHeader := true } [1]).1.sink.out =
      ({ wroteStreamHeader := true } : Writer).sink.out ++ blockChunk enc0 [1] ∧
    (0 < (enc0 [1]).length →
      blockChunk enc0 [1] =
        chunkTypeMinLZCompressedData ::
          (leBytes3 (4 + (putUvarint ([1] : List Nat).length).length + (enc0 [1]).length) ++
            leBytes4 (crc [1]) ++ putUvarint ([1] : List Nat).length ++ enc0 [1])) ∧
    ((enc0 [1]).length = 0 →
      blockChunk enc0 [1] =
        chunkTypeUncompressedData ::
          (leBytes3 (4 + ([1] : List Nat).length) ++ leBytes4 (crc [1]) ++ [1]) ∧
      fromLE3 ((blockChunk enc0 [1]).drop 1 |>.take 3) = 4 + ([1] : List Nat).length)) :=
  ⟨⟨rfl, rfl, rfl, by decide, by decide, by decide⟩,
   claim_C1 enc0 { wroteStreamHeader := true } [1] rfl rfl rfl (by decide) (by decide)
     (by decide)⟩

/-! ## C2: the masked checksum in the chunk body -/

/-- C2: on both paths the emitted chunk carries, in body bytes 0..3 (chunk
bytes 4..7), the little-endian masked checksum of the uncompressed block:
`mask(c) = ((c >>> 15) ||| (c <<< 17 mod 2^32)) + 0xA282EAD8 mod 2^32` with
`c` the CRC-32-Castagnoli of the block, which fits 32 bits. -/
theorem claim_C2 (enc : Enc) (w : Writer) (src : List Nat)
    (he : w.errState = none) (hr : w.sink.resps = [])
    (hw : w.wroteStreamHeader = true) (h0 : src ≠ [])
    (hbs : src.length ≤ w.blockSize) :
    (writeSyncOp enc w src).1.sink.out = w.sink.out ++ blockChunk enc src ∧
    (writeConcOp enc w src).1.sink.out = w.sink.out ++ blockChunk enc src ∧
    ((blockChunk enc src).drop 4).take 4 = leBytes4 (crc src) ∧
    fromLE4 (leBytes4 (crc src)) = crc src ∧
    crc src = ((crc32c src >>> 15 ||| (crc32c src <<< 17) % 4294967296) +
      0xA282EAD8) % 4294967296 ∧
    crc32c src < 4294967296 := by
  have hsingle := blocksOut_single enc w.blockSize src h0 hbs
  have hhd : hdrOut w = [] := by
    unfold hdrOut
    rw [hw]
    rfl
  obtain ⟨ha, _, _⟩ := writeSyncOp_ideal enc w src he hr
  obtain ⟨hb, _, _⟩ := writeConcOp_ideal enc w src he hr h0
  have hlt := crc32c_lt src
  have hmask : crc src = ((crc32c src >>> 15 ||| (crc32c src <<< 17) % 4294967296) +
      0xA282EAD8) % 4294967296 := by
    unfold crc maskCrc
    rw [Nat.shiftRight_eq_div_pow, Nat.shiftLeft_eq]
    rw [Nat.mod_eq_of_lt hlt]
  refine ⟨?_, ?_, ?_, fromLE4_leBytes4 _ ?_, hmask, hlt⟩
  · rw [ha.out, hhd, List.nil_append, hsingle]
  · rw [hb.out, hhd, List.nil_append, hsingle]
  · unfold blockChunk
    by_cases hz : 0 < (enc src).length
    · rw [if_pos hz]
      simp [leBytes3, leBytes4]
    · rw [if_neg hz]
      simp [leBytes3, leBytes4]
  · unfold crc maskCrc
    omega

/-- C2 witness: the two-byte block `[104, 105]` ("hi"). -/
theorem claim_C2_witness :
    (({ wroteStreamHeader := true } : Writer).errState = none ∧
      ({ wroteStreamHeader := true } : Writer).sink.resps = [] ∧
      ({ wroteStreamHeader := true } : Writer).wroteStreamHeader = true ∧
      ([104, 105] : List Nat) ≠ [] ∧
      ([104, 105] : List Nat).length ≤ ({ wroteStreamHeader := true } : Writer).blockSize) ∧
    ((writeSyncOp enc0 { wroteStreamHeader := true } [104, 105]).1.sink.out =
      ({ wroteStreamHeader := true } : Writer).sink.out ++ blockChunk enc0 [104, 105] ∧
    (writeConcOp enc0 { wroteStreamHeader := true } [104, 105]).1.sink.out =
      ({ wroteStreamHeader := true } : Writer).sink.out ++ blockChunk enc0 [104, 105] ∧
    ((blockChunk enc0 [104, 105]).drop 4).take 4 = leBytes4 (crc [104, 105]) ∧
    fromLE4 (leBytes4 (crc [104, 105])) = crc [104, 105] ∧
    crc [104, 105] = ((crc32c [104, 105] >>> 15 |||
      (crc32c [104, 105] <<< 17) % 4294967296) + 0xA282EAD8) % 4294967296 ∧
    crc32c [104, 105] < 4294967296) :=
  ⟨⟨rfl, rfl, rfl, by decide, by decide⟩,
   claim_C2 enc0 { wroteStreamHeader := true } [104, 105] rfl rfl rfl (by decide)
     (by decide)⟩

/-! ## C4: the empty-stream header (a code bug) -/

/-- C4 names the intended behavior — header first, and
`header ‖ eof-varint-of-0` for the empty stream — but the code violates it:
`closeIndex` writes the EOF marker without ever emitting the stream header
(writer.go:787-798 has no header check), so a fresh default writer closed
immediately delivers only the five-byte EOF chunk to the sink; the output
is not `header ‖ eof` and does not even begin with the magic bytes, which
makes the stream undecodable and breaks the spec's round-trip property. -/
theorem claim_C4 :
    (closeIndexOp enc0 randZeros ({} : Writer) false).1.sink.out =
      [chunkTypeEOF, 1, 0, 0, 0] ∧
    (closeIndexOp enc0 randZeros ({} : Writer) false).1.errState = some .closed ∧
    (closeIndexOp enc0 randZeros ({} : Writer) false).2.2 = none ∧
    (closeIndexOp enc0 randZeros ({} : Writer) false).1.sink.out ≠
      makeHeader defaultBlockSize ++ [chunkTypeEOF, 1, 0, 0, 0] ∧
    ((closeIndexOp enc0 randZeros ({} : Writer) false).1.sink.out).take
      magicChunk.length ≠ magicChunk := by
  have h1 : (closeIndexOp enc0 randZeros ({} : Writer) false).1.sink.out =
      [chunkTypeEOF, 1, 0, 0, 0] := rfl
  refine ⟨h1, rfl, rfl, ?_, ?_⟩
  · rw [h1]
    intro h
    have h2 := congrArg List.length h
    rw [List.length_append, makeHeader_length] at h2
    simp [magicChunk, chunkTypeEOF] at h2
  · rw [h1]
    decide

/-! ## C5: promotion of short writes -/

theorem blockChunk_length_ge (enc : Enc) (src : List Nat) :
    obufHeaderLen ≤ (blockChunk enc src).length := by
  unfold blockChunk
  by_cases h : 0 < (enc src).length
  · rw [if_pos h]
    simp only [List.length_cons, List.length_append, leBytes3, leBytes4, obufHeaderLen]
    omega
  · rw [if_neg h]
    simp only [List.length_cons, List.length_append, leBytes3, leBytes4, obufHeaderLen]
    omega

/-- C5, original form, is false in the dispatcher: an error-free short
write there is promoted to `io.ErrShortBuffer` (writer.go:166), not to
`ErrShortWrite`. -/
theorem claim_C5_cex :
    (dispatchOne { sink := ⟨[], [SinkResp.short 0]⟩ } ⟨[9], 0⟩).errState ≠
      some Err.shortWrite ∧
    (dispatchOne { sink := ⟨[], [SinkResp.short 0]⟩ } ⟨[9], 0⟩).errState =
      some Err.shortBuffer := by
  refine ⟨?_, by rfl⟩
  intro h
  rw [show (dispatchOne { sink := ⟨[], [SinkResp.short 0]⟩ } ⟨[9], 0⟩).errState =
    some Err.shortBuffer from rfl] at h
  cases h

set_option maxHeartbeats 1600000 in
/-- C5 (amended: the synchronous path and `AddUserChunk` promote error-free
short writes to `ErrShortWrite` and latch it, while the concurrent
dispatcher promotes them to `io.ErrShortBuffer` and latches that instead). -/
theorem claim_C5 :
    (∀ (enc : Enc) (w : Writer) (p : List Nat) (k : Nat),
      w.errState = none → w.sink.resps = [SinkResp.short k] →
      w.wroteStreamHeader = true → p ≠ [] → k < obufHeaderLen →
      (writeSyncOp enc w p).1.errState = some Err.shortWrite ∧
      (writeSyncOp enc w p).2.2 = some Err.shortWrite) ∧
    (∀ (w : Writer) (r : Rec) (k : Nat),
      w.errState = none → w.sink.resps = [SinkResp.short k] → k < r.b.length →
      (dispatchOne w r).errState = some Err.shortBuffer) ∧
    (∀ (w : Writer) (id : Nat) (data : List Nat) (k : Nat),
      w.errState = none → w.sink.resps = [SinkResp.short k] →
      w.concurrency = 1 → w.wroteStreamHeader = true →
      MinUserSkippableChunk ≤ id → id ≤ ChunkTypePadding →
      data.length ≤ MaxUserChunkSize → k < 4 →
      (addUserChunkOp w id data).2 = some Err.shortWrite ∧
      (addUserChunkOp w id data).1.errState = some Err.shortWrite) := by
  refine ⟨?_, ?_, ?_⟩
  · intro enc w p k he hr hw hp hk
    obtain ⟨es, ib, bs, cc, pd, fw, ai, gi, wh, wr, uw, ⟨out, resps⟩, ix⟩ := w
    obtain rfl : es = none := he
    obtain rfl : resps = [SinkResp.short k] := hr
    obtain rfl : wh = true := hw
    match p, hp with
    | x :: rest, _ =>
      simp only [obufHeaderLen] at hk
      by_cases hst : (enc ((x :: rest).take bs)).length = 0
      · obtain ⟨hsplit, hlen8⟩ := blockChunk_stored_split enc ((x :: rest).take bs) hst
        simp only [obufHeaderLen] at hlen8
        simp only [writeSyncOp, writeSyncLoop, sinkWrite, Sink.write, hst, if_true,
          ite_true, obufHeaderLen, hlen8, Writer.latch, errCall]
        rw [if_pos (show k ⊓ 8 ≠ 8 by omega)]
        exact ⟨rfl, rfl⟩
      · have hge := blockChunk_length_ge enc ((x :: rest).take bs)
        simp only [obufHeaderLen] at hge
        simp only [writeSyncOp, writeSyncLoop, sinkWrite, Sink.write, hst, if_false,
          ite_false, obufHeaderLen, Writer.latch, errCall]
        rw [if_pos (show k ⊓ (blockChunk enc ((x :: rest).take bs)).length ≠
          (blockChunk enc ((x :: rest).take bs)).length by omega)]
        exact ⟨rfl, rfl⟩
  · intro w r k he hr hk
    obtain ⟨b, so⟩ := r
    obtain ⟨es, ib, bs, cc, pd, fw, ai, gi, wh, wr, uw, ⟨out, resps⟩, ix⟩ := w
    obtain rfl : es = none := he
    obtain rfl : resps = [SinkResp.short k] := hr
    have hb : 0 < (Rec.mk b so).b.length := by
      simp only [Rec.b] at hk ⊢
      omega
    have hmin : min k b.length = k := by
      simp only [Rec.b] at hk
      omega
    simp only [dispatchOne, hb, if_true, ite_true, sinkWrite, Sink.write, Rec.b,
      hmin, Writer.latch, errCall]
    rw [if_pos ⟨trivial, by simp only [Rec.b] at hk; omega⟩]
  · intro w id data k he hr hc hw hid1 hid2 hdata hk
    obtain ⟨es, ib, bs, cc, pd, fw, ai, gi, wh, wr, uw, ⟨out, resps⟩, ix⟩ := w
    obtain rfl : es = none := he
    obtain rfl : resps = [SinkResp.short k] := hr
    obtain rfl : cc = 1 := hc
    obtain rfl : wh = true := hw
    have hnid : ¬(id < MinUserSkippableChunk ∨ ChunkTypePadding < id) := by
      simp only [MinUserSkippableChunk, ChunkTypePadding] at hid1 hid2 ⊢
      omega
    have hnsz : ¬(MaxUserChunkSize < data.length) := by omega
    have hl4 : (id :: leBytes3 data.length).length = 4 := by
      simp [leBytes3]
    by_cases huw : 0 < uw
    · simp only [addUserChunkOp, hnid, hnsz, if_false, ite_false, if_true, ite_true,
        huw, sinkWrite, Sink.write, Writer.latch, errCall, hl4]
      rw [if_pos (show k ⊓ 4 ≠ 4 by omega)]
      exact ⟨rfl, rfl⟩
    · simp only [addUserChunkOp, hnid, hnsz, if_false, ite_false, if_true, ite_true,
        huw, sinkWrite, Sink.write, Writer.latch, errCall, hl4]
      rw [if_pos (show k ⊓ 4 ≠ 4 by omega)]
      exact ⟨rfl, rfl⟩

/-- C5 witness: one-byte blocks against a sink that accepts zero bytes. -/
theorem claim_C5_witness :
    (({ wroteStreamHeader := true, sink := ⟨[], [SinkResp.short 0]⟩ } : Writer).errState
        = none ∧
      ({ wroteStreamHeader := true, sink := ⟨[], [SinkResp.short 0]⟩ } : Writer).sink.resps
        = [SinkResp.short 0] ∧
      ([7] : List Nat) ≠ [] ∧ 0 < obufHeaderLen ∧
      (0 : Nat) < (Rec.mk [7] 0).b.length ∧
      ({ wroteStreamHeader := true, sink := ⟨[], [SinkResp.short 0]⟩ } : Writer).concurrency
        = 1 ∧
      MinUserSkippableChunk ≤ 0x90 ∧ (0x90 : Nat) ≤ ChunkTypePadding ∧
      ([1] : List Nat).length ≤ MaxUserChunkSize ∧ (0 : Nat) < 4) ∧
    ((writeSyncOp enc0 { wroteStreamHeader := true, sink := ⟨[], [SinkResp.short 0]⟩ }
        [7]).1.errState = some Err.shortWrite ∧
      (writeSyncOp enc0 { wroteStreamHeader := true, sink := ⟨[], [SinkResp.short 0]⟩ }
        [7]).2.2 = some Err.shortWrite) ∧
    (dispatchOne { sink := ⟨[], [SinkResp.short 0]⟩ } (Rec.mk [7] 0)).errState =
      some Err.shortBuffer ∧
    ((addUserChunkOp { wroteStreamHeader := true, sink := ⟨[], [SinkResp.short 0]⟩ }
        0x90 [1]).2 = some Err.shortWrite ∧
      (addUserChunkOp { wroteStreamHeader := true, sink := ⟨[], [SinkResp.short 0]⟩ }
        0x90 [1]).1.errState = some Err.shortWrite) :=
  ⟨⟨rfl, rfl, by decide, by decide, by decide, rfl, by decide, by decide, by decide,
      by decide⟩,
   claim_C5.1 enc0 { wroteStreamHeader := true, sink := ⟨[], [SinkResp.short 0]⟩ } [7] 0
     rfl rfl rfl (by decide) (by decide),
   claim_C5.2.1 { sink := ⟨[], [SinkResp.short 0]⟩ } (Rec.mk [7] 0) 0 rfl rfl (by decide),
   claim_C5.2.2 { wroteStreamHeader := true, sink := ⟨[], [SinkResp.short 0]⟩ } 0x90 [1] 0
     rfl rfl rfl rfl (by decide) (by decide) (by decide) (by decide)⟩


/-! ## The sticky error cell (C3) -/

/-- With an error latched, `Flush` touches nothing and returns it
(writer.go:736-753 through the gate of `AsyncFlush`, writer.go:712-714). -/
theorem flushOp_stuck (enc : Enc) (w : Writer) (e : Err) (he : w.errState = some e) :
    flushOp enc w = (w, some e) := by
  simp only [flushOp, asyncFlushOp, he]

/-- `closeIndex` past the flush when an error is already latched: the writer
is untouched; the index-requested check still fires first, the closed and
nil-writer sentinels still read as success, and any other latched error is
returned (writer.go:783-848). -/
theorem closeIndexBody_stuck (rand : Nat → List Nat) (w : Writer) (e : Err) (idx : Bool)
    (he : w.errState = some e) :
    closeIndexBody rand w (some e) idx =
      if idx ∧ w.index = none then (w, none, some Err.indexRequested)
      else if e = Err.closed ∨ e = Err.nilWriter then (w, none, none)
      else (w, none, some e) := by
  have hec : errCall w (some e) = (w, some e) := by
    simp only [errCall, he]
  have hec2 : errCall w (some Err.closed) = (w, some e) := by
    simp only [errCall, he]
  by_cases hidx : idx ∧ w.index = none
  · unfold closeIndexBody
    rw [if_pos hidx, if_pos hidx]
  · unfold closeIndexBody
    rw [if_neg hidx, if_neg hidx]
    simp only [hec, hec2, reduceCtorEq, reduceIte, Option.some.injEq, ite_false, if_false]

/-- `closeIndex` as a whole when an error is already latched. -/
theorem closeIndexOp_stuck (enc : Enc) (rand : Nat → List Nat) (w : Writer) (e : Err)
    (idx : Bool) (he : w.errState = some e) :
    closeIndexOp enc rand w idx =
      if idx ∧ w.index = none then (w, none, some Err.indexRequested)
      else if e = Err.closed ∨ e = Err.nilWriter then (w, none, none)
      else (w, none, some e) := by
  unfold closeIndexOp
  rw [flushOp_stuck enc w e he]
  exact closeIndexBody_stuck rand w e idx he

/-- C3 counterexample: with `errClosed` latched (as after a first `Close`),
a subsequent `Close` returns success, not the latched error. -/
theorem claim_C3_cex :
    (runOp enc0 randZeros { errState := some Err.closed } PubOp.close).2 = none ∧
    (runOp enc0 randZeros { errState := some Err.closed } PubOp.close).2 ≠
      some Err.closed := by
  exact ⟨rfl, by decide⟩

/-- C3 (amended: once an error is latched every public call leaves the
state — in particular the sink bytes and the error cell — untouched;
`Write`, `EncodeBuffer`, `ReadFrom`, `AddUserChunk`, `AsyncFlush` and
`Flush` return the first error unchanged, while `Close` and `CloseIndex`
report the `errClosed` and `errNilWriter` sentinels as success, and
`CloseIndex` — or `Close` with index appending on — on a writer whose
index was never allocated returns the index-requested error instead). -/
theorem claim_C3 (enc : Enc) (rand : Nat → List Nat) (w : Writer) (e : Err) (op : PubOp)
    (he : w.errState = some e) :
    (runOp enc rand w op).1 = w ∧
    (runOp enc rand w op).1.sink.out = w.sink.out ∧
    (runOp enc rand w op).1.errState = some e ∧
    (runOp enc rand w op).2 =
      (match op with
        | PubOp.close =>
          if w.appendIndex ∧ w.index = none then some Err.indexRequested
          else if e = Err.closed ∨ e = Err.nilWriter then none else some e
        | PubOp.closeIndex =>
          if w.index = none then some Err.indexRequested
          else if e = Err.closed ∨ e = Err.nilWriter then none else some e
        | _ => some e) := by
  cases op with
  | write p =>
    have h : runOp enc rand w (PubOp.write p) = (w, some e) := by
      simp only [runOp, writePubOp, he]
    rw [h]
    exact ⟨rfl, rfl, he, rfl⟩
  | encodeBuffer p =>
    have h : runOp enc rand w (PubOp.encodeBuffer p) = (w, some e) := by
      simp only [runOp, encodeBufferOp, he]
    rw [h]
    exact ⟨rfl, rfl, he, rfl⟩
  | readFrom d =>
    have h : runOp enc rand w (PubOp.readFrom d) = (w, some e) := by
      simp only [runOp, readFromOp, he]
    rw [h]
    exact ⟨rfl, rfl, he, rfl⟩
  | addUserChunk id data =>
    have h : runOp enc rand w (PubOp.addUserChunk id data) = (w, some e) := by
      simp only [runOp, addUserChunkOp, he]
    rw [h]
    exact ⟨rfl, rfl, he, rfl⟩
  | asyncFlush =>
    have h : runOp enc rand w PubOp.asyncFlush = (w, some e) := by
      simp only [runOp, asyncFlushOp, he]
    rw [h]
    exact ⟨rfl, rfl, he, rfl⟩
  | flush =>
    have h : runOp enc rand w PubOp.flush = (w, some e) := flushOp_stuck enc w e he
    rw [h]
    exact ⟨rfl, rfl, he, rfl⟩
  | close =>
    have h : runOp enc rand w PubOp.close =
        ((closeIndexOp enc rand w w.appendIndex).1,
         (closeIndexOp enc rand w w.appendIndex).2.2) := by
      simp only [runOp, closeOp]
    rw [closeIndexOp_stuck enc rand w e w.appendIndex he] at h
    by_cases hidx : w.appendIndex ∧ w.index = none
    · rw [if_pos hidx] at h
      have h2 : runOp enc rand w PubOp.close = (w, some Err.indexRequested) := h
      rw [h2]
      exact ⟨rfl, rfl, he, (if_pos hidx).symm⟩
    · rw [if_neg hidx] at h
      by_cases hce : e = Err.closed ∨ e = Err.nilWriter
      · rw [if_pos hce] at h
        have h2 : runOp enc rand w PubOp.close = (w, none) := h
        rw [h2]
        exact ⟨rfl, rfl, he, ((if_neg hidx).trans (if_pos hce)).symm⟩
      · rw [if_neg hce] at h
        have h2 : runOp enc rand w PubOp.close = (w, some e) := h
        rw [h2]
        exact ⟨rfl, rfl, he, ((if_neg hidx).trans (if_neg hce)).symm⟩
  | closeIndex =>
    have h : runOp enc rand w PubOp.closeIndex =
        ((closeIndexOp enc rand w true).1,
         (closeIndexOp enc rand w true).2.2) := by
      simp only [runOp]
    rw [closeIndexOp_stuck enc rand w e true he] at h
    by_cases hin : w.index = none
    · rw [if_pos ⟨rfl, hin⟩] at h
      have h2 : runOp enc rand w PubOp.closeIndex = (w, some Err.indexRequested) := h
      rw [h2]
      exact ⟨rfl, rfl, he, (if_pos hin).symm⟩
    · rw [if_neg (fun hh => hin hh.2)] at h
      by_cases hce : e = Err.closed ∨ e = Err.nilWriter
      · rw [if_pos hce] at h
        have h2 : runOp enc rand w PubOp.closeIndex = (w, none) := h
        rw [h2]
        exact ⟨rfl, rfl, he, ((if_neg hin).trans (if_pos hce)).symm⟩
      · rw [if_neg hce] at h
        have h2 : runOp enc rand w PubOp.closeIndex = (w, some e) := h
        rw [h2]
        exact ⟨rfl, rfl, he, ((if_neg hin).trans (if_neg hce)).symm⟩

/-- C3 witness: a latched I/O error survives a `Write` untouched and is
returned. -/
theorem claim_C3_witness :
    ({ errState := some (Err.io 7) } : Writer).errState = some (Err.io 7) ∧
    ((runOp enc0 randZeros { errState := some (Err.io 7) } (PubOp.write [1])).1 =
        ({ errState := some (Err.io 7) } : Writer) ∧
      (runOp enc0 randZeros { errState := some (Err.io 7) } (PubOp.write [1])).1.sink.out =
        ({ errState := some (Err.io 7) } : Writer).sink.out ∧
      (runOp enc0 randZeros { errState := some (Err.io 7) } (PubOp.write [1])).1.errState =
        some (Err.io 7) ∧
      (runOp enc0 randZeros { errState := some (Err.io 7) } (PubOp.write [1])).2 =
        some (Err.io 7)) :=
  ⟨rfl, claim_C3 enc0 randZeros { errState := some (Err.io 7) } (Err.io 7)
    (PubOp.write [1]) rfl⟩


/-! ## Idempotent close (C7) -/

/-- `Flush` on a healthy synchronous writer with nothing buffered is a
no-op (writer.go:736-753). -/
theorem flushOp_idle (enc : Enc) (w : Writer) (he : w.errState = none)
    (hib : w.ibuf = []) (hcc : w.concurrency = 1) :
    flushOp enc w = (w, none) := by
  simp only [flushOp, asyncFlushOp, he, hib, hcc, ite_true, if_true, eq_self_iff_true,
    reduceIte]

/-- The first `closeIndex` on a healthy, unpadded, synchronous writer with
an allocated index and no appending: the EOF chunk goes out, the index
bytes are returned, `errClosed` is latched, and the call reports success
(writer.go:783-848, excluding the padding and append branches). -/
theorem closeIndexBody_ideal (rand : Nat → List Nat) (w : Writer)
    (entries : List (Nat × Nat)) (he : w.errState = none) (hr : w.sink.resps = [])
    (hai : w.appendIndex = false) (hpd : w.pad ≤ 1) (hix : w.index = some entries) :
    closeIndexBody rand w none true =
      ({ w with
          errState := some Err.closed,
          sink := ⟨w.sink.out ++ (chunkTypeEOF :: (putUvarint w.uncompWritten).length ::
            0 :: 0 :: putUvarint w.uncompWritten), []⟩,
          written := w.written + (chunkTypeEOF :: (putUvarint w.uncompWritten).length ::
            0 :: 0 :: putUvarint w.uncompWritten).length },
       some (indexAppendTo [] entries w.uncompWritten
         ((w.written + (chunkTypeEOF :: (putUvarint w.uncompWritten).length ::
            0 :: 0 :: putUvarint w.uncompWritten).length : Nat) : Int)),
       none) := by
  obtain ⟨es, ib, bs, cc, pd, fw, ai, gi, wh, wr, uw, ⟨out, resps⟩, ix⟩ := w
  obtain rfl : es = none := he
  obtain rfl : resps = [] := hr
  obtain rfl : ai = false := hai
  obtain rfl : ix = some entries := hix
  have hpd2 : pd ≤ 1 := hpd
  have hnpd : ¬(1 < pd) := by omega
  simp only [closeIndexBody, errCall, sinkWrite, Sink.write, Writer.latch, hpd2, hnpd,
    reduceCtorEq, reduceIte, Bool.false_eq_true, and_false, false_and, and_true,
    true_and, if_true, if_false, ite_true, ite_false, or_true, true_or,
    Option.getD_some, eq_self_iff_true, Option.some.injEq]

/-- C7: the first `CloseIndex` returns the serialized index and reports
success; a second `CloseIndex` on the resulting writer changes nothing,
reports success and returns no index, and so does a second `Close`. -/
theorem claim_C7 (enc : Enc) (rand : Nat → List Nat) (w : Writer)
    (entries : List (Nat × Nat)) (he : w.errState = none) (hr : w.sink.resps = [])
    (hib : w.ibuf = []) (hcc : w.concurrency = 1) (hai : w.appendIndex = false)
    (hpd : w.pad ≤ 1) (hix : w.index = some entries) :
    ((closeIndexOp enc rand w true).2.1).isSome = true ∧
    (closeIndexOp enc rand w true).2.2 = none ∧
    (closeIndexOp enc rand (closeIndexOp enc rand w true).1 true).1 =
      (closeIndexOp enc rand w true).1 ∧
    (closeIndexOp enc rand (closeIndexOp enc rand w true).1 true).2.1 = none ∧
    (closeIndexOp enc rand (closeIndexOp enc rand w true).1 true).2.2 = none ∧
    (closeOp enc rand (closeIndexOp enc rand w true).1).1 =
      (closeIndexOp enc rand w true).1 ∧
    (closeOp enc rand (closeIndexOp enc rand w true).1).2 = none := by
  have h1 : closeIndexOp enc rand w true = closeIndexBody rand w none true := by
    unfold closeIndexOp
    rw [flushOp_idle enc w he hib hcc]
  have hB := closeIndexBody_ideal rand w entries he hr hai hpd hix
  have hw1e : (closeIndexOp enc rand w true).1.errState = some Err.closed := by
    rw [h1, hB]
  have hw1ix : (closeIndexOp enc rand w true).1.index = some entries := by
    rw [h1, hB]
    exact hix
  have hw1ai : (closeIndexOp enc rand w true).1.appendIndex = false := by
    rw [h1, hB]
    exact hai
  have hfirstSome : ((closeIndexOp enc rand w true).2.1).isSome = true := by
    rw [h1, hB]
    rfl
  have hfirstErr : (closeIndexOp enc rand w true).2.2 = none := by
    rw [h1, hB]
  have h2 : closeIndexOp enc rand (closeIndexOp enc rand w true).1 true =
      ((closeIndexOp enc rand w true).1, none, none) := by
    rw [closeIndexOp_stuck enc rand _ Err.closed true hw1e]
    rw [if_neg (by simp [hw1ix])]
    rw [if_pos (Or.inl rfl)]
  have h3 : closeOp enc rand (closeIndexOp enc rand w true).1 =
      ((closeIndexOp enc rand w true).1, none) := by
    unfold closeOp
    rw [hw1ai]
    rw [closeIndexOp_stuck enc rand _ Err.closed false hw1e]
    rw [if_neg (by simp)]
    rw [if_pos (Or.inl rfl)]
  exact ⟨hfirstSome, hfirstErr, by rw [h2], by rw [h2], by rw [h2], by rw [h3],
    by rw [h3]⟩

/-- C7 witness: a fresh default writer (empty index allocated). -/
theorem claim_C7_witness :
    (({} : Writer).errState = none ∧ ({} : Writer).sink.resps = [] ∧
      ({} : Writer).ibuf = [] ∧ ({} : Writer).concurrency = 1 ∧
      ({} : Writer).appendIndex = false ∧ ({} : Writer).pad ≤ 1 ∧
      ({} : Writer).index = some []) ∧
    (((closeIndexOp enc0 randZeros {} true).2.1).isSome = true ∧
      (closeIndexOp enc0 randZeros {} true).2.2 = none ∧
      (closeIndexOp enc0 randZeros (closeIndexOp enc0 randZeros {} true).1 true).1 =
        (closeIndexOp enc0 randZeros {} true).1 ∧
      (closeIndexOp enc0 randZeros (closeIndexOp enc0 randZeros {} true).1 true).2.1 =
        none ∧
      (closeIndexOp enc0 randZeros (closeIndexOp enc0 randZeros {} true).1 true).2.2 =
        none ∧
      (closeOp enc0 randZeros (closeIndexOp enc0 randZeros {} true).1).1 =
        (closeIndexOp enc0 randZeros {} true).1 ∧
      (closeOp enc0 randZeros (closeIndexOp enc0 randZeros {} true).1).2 = none) :=
  ⟨⟨rfl, rfl, rfl, rfl, rfl, Nat.zero_le 1, rfl⟩,
   claim_C7 enc0 randZeros {} [] rfl rfl rfl rfl rfl (Nat.zero_le 1) rfl⟩

end MinLZ
